import Mathlib

/-!
Verification of the content-graph analysis core of
`google-ai-mode-optimization-tool` (`src/app.py`, class
`WordPressQueryFanOutAnalyzer`).

The Python code is shallowly embedded:

* Graph state (`networkx.DiGraph`) becomes a `Graph` structure: an
  insertion-ordered association list of nodes (Python dicts preserve
  insertion order) plus an edge list holding at most one edge per ordered
  pair of endpoints (`DiGraph.add_edge` on an existing pair only updates
  its attributes).  `DiGraph.add_edge` silently inserts missing endpoints
  into the node dict; that is modelled by `ensureNode`.
* Node attribute dicts become `NodeData`, with `Option` fields standing
  for possibly-absent attributes and list fields defaulting to `[]`
  (matching `data.get('categories', [])`).
* CPython raises `RuntimeError: dictionary changed size during iteration`
  from a `for ... in G.nodes(data=True)` loop whose body grows the node
  dict; the check fires at every `next()` call, including the final one.
  Loops of that shape are embedded through `iterGraphNodes`, which
  returns `Except String Graph` and reproduces the size check.
* Python floats are modelled by `ℚ`.  Every score constant in the source
  (`0.1`, `0.2`, `0.3`, `0.7`, the similarity threshold `0.3`) is exact
  in this model; the one place where the float and rational computations
  could diverge, `min(score, 1.0)` when all six contributions fire, was
  checked against binary64 arithmetic: the float sum is exactly `1.0`,
  as in `ℚ`.
* Regular-expression calls (`re.sub('<.*?>', ...)`, `re.sub(r'\s+', ...)`,
  `re.findall(rf'{site_url}/[^"\'>\s]+', ...)`) and `str` methods
  (`split()`, `count`, `in`) are embedded as executable scanners below.
  `site_url` is treated as a literal string (its characters are regex
  metacharacters in the source, where `.` in the domain also matches any
  character; none of the verified claims depends on link extraction).
-/

/-! ## String utilities (`clean_html`, `split()`, `count`, `in`, `findall`) -/

/-- One step of `re.sub('<.*?>', '', html)`: after a `'<'`, a match needs a
`'>'` with no newline strictly in between (`.` does not match `'\n'`).
Returns the remainder after the first `'>'`, or `none` when a newline or
the end of the text comes first. -/
def spanToGt : List Char → Option (List Char)
  | [] => none
  | '>' :: cs => some cs
  | '\n' :: _ => none
  | _ :: cs => spanToGt cs

/-- `re.sub('<.*?>', '', html)` on character lists.  The scan tries a match
at each position from the left; a successful match consumes through the
first `'>'`, a failed `'<'` is kept as ordinary text.  Fuel-based so that
it is structurally recursive; callers pass the list length as fuel. -/
def removeTagsF : Nat → List Char → List Char
  | 0, s => s
  | _ + 1, [] => []
  | fuel + 1, '<' :: cs =>
    match spanToGt cs with
    | some rest => removeTagsF fuel rest
    | none => '<' :: removeTagsF fuel cs
  | fuel + 1, c :: cs => c :: removeTagsF fuel cs

/-- `re.sub(r'\s+', ' ', text)`: every maximal whitespace run becomes one
space.  The flag records whether the previous character was whitespace. -/
def collapseWsAux : Bool → List Char → List Char
  | _, [] => []
  | prevWs, c :: cs =>
    if c.isWhitespace then
      if prevWs then collapseWsAux true cs else ' ' :: collapseWsAux true cs
    else c :: collapseWsAux false cs

/-- `str.strip()`: drop leading and trailing whitespace. -/
def stripChars (s : List Char) : List Char :=
  ((s.dropWhile Char.isWhitespace).reverse.dropWhile Char.isWhitespace).reverse

/-- `clean_html` (src/app.py:166-170): strip tags, collapse whitespace,
trim. -/
def clean_html (html : String) : String :=
  ⟨stripChars (collapseWsAux false (removeTagsF html.data.length html.data))⟩

/-- `len(content.split())`: number of maximal non-whitespace runs.  The
flag records whether the scan is inside a word. -/
def countWordsAux : Bool → List Char → Nat
  | _, [] => 0
  | inWord, c :: cs =>
    if c.isWhitespace then countWordsAux false cs
    else (if inWord then 0 else 1) + countWordsAux true cs

/-- `len(s.split())` for a Python string `s`. -/
def countWords (s : String) : Nat := countWordsAux false s.data

/-- `str.count(pat)`: non-overlapping occurrences, scanning from the left;
a match advances past the whole pattern.  Fuel-based (callers pass the
text length). -/
def countSubF (pat : List Char) : Nat → List Char → Nat
  | 0, _ => 0
  | _ + 1, [] => 0
  | fuel + 1, c :: cs =>
    if pat.isPrefixOf (c :: cs) then
      1 + countSubF pat fuel (List.drop (pat.length - 1) cs)
    else countSubF pat fuel cs

/-- `s.count(pat)`.  (`s.count('')` is `len(s) + 1` in Python; the scanner
is only ever used with non-empty patterns.) -/
def countSub (pat s : String) : Nat :=
  if pat.data.isEmpty then s.data.length + 1
  else countSubF pat.data s.data.length s.data

/-- `pat in s` (Python substring containment). -/
def hasSubAux (pat : List Char) : List Char → Bool
  | [] => pat.isEmpty
  | c :: cs => pat.isPrefixOf (c :: cs) || hasSubAux pat cs

/-- `pat in s` for Python strings. -/
def hasSub (pat s : String) : Bool := hasSubAux pat.data s.data

/-- Character class `[^"\'>\s]` of the internal-link pattern. -/
def linkChar (c : Char) : Bool :=
  !(c = '"' || c = '\'' || c = '>' || c.isWhitespace)

/-- `re.findall(rf'{site_url}/[^"\'>\s]+', text)`: leftmost,
non-overlapping, greedy matches of the site prefix followed by `'/'` and
one or more link characters.  `pat` is `site_url ++ "/"`. -/
def findLinksF (pat : List Char) : Nat → List Char → List (List Char)
  | 0, _ => []
  | _ + 1, [] => []
  | fuel + 1, c :: cs =>
    if pat.isPrefixOf (c :: cs) then
      let rest := List.drop (pat.length - 1) cs
      let body := rest.takeWhile linkChar
      if body.isEmpty then findLinksF pat fuel cs
      else (pat ++ body) :: findLinksF pat fuel (rest.drop body.length)
    else findLinksF pat fuel cs

/-- Internal-link extraction from a body text (src/app.py:177). -/
def find_internal_links (site_url text : String) : List String :=
  (findLinksF (site_url.data ++ ['/']) text.data.length text.data).map
    (fun l => ⟨l⟩)

/-! ## Data model: node keys, node attribute dicts, the directed graph -/

/-- A key of the shared node keyspace.  Posts are keyed by their bare
numeric WordPress id (`post['id']`, a Python `int`); pages, categories
and tags are keyed by prefixed strings (`f"page_{id}"`, `f"cat_{id}"`,
`f"tag_{id}"`).  A Python `int` key and a `str` key are always distinct
dict keys, which the two constructors reflect. -/
inductive NodeKey where
  | num : Nat → NodeKey
  | str : String → NodeKey
deriving DecidableEq, Repr

/-- Key of a post node (src/app.py:134). -/
def postKey (id : Nat) : NodeKey := .num id

/-- Key of a page node (src/app.py:148). -/
def pageKey (id : Nat) : NodeKey := .str ("page_" ++ toString id)

/-- Key of a category node (src/app.py:191). -/
def catKey (id : Nat) : NodeKey := .str ("cat_" ++ toString id)

/-- Key of a tag node (src/app.py:199). -/
def tagKey (id : Nat) : NodeKey := .str ("tag_" ++ toString id)

/-- A node attribute dict.  `none` / `[]` stands for an absent attribute;
a node freshly created by `add_edge` has every attribute absent. -/
structure NodeData where
  type : Option String := none
  title : Option String := none
  url : Option String := none
  content : Option String := none
  excerpt : Option String := none
  categories : List Nat := []
  tags : List Nat := []
  parent : Option Nat := none
  name : Option String := none
  slug : Option String := none
  date : Option String := none
deriving DecidableEq, Repr

/-- The analyzer's `networkx.DiGraph`: insertion-ordered node dict and an
edge list with at most one (typed) edge per ordered pair. -/
structure Graph where
  nodes : List (NodeKey × NodeData)
  edges : List (NodeKey × NodeKey × String)
deriving DecidableEq, Repr

/-- Attribute dict of node `k`, when present. -/
def findNode (g : Graph) (k : NodeKey) : Option NodeData :=
  (g.nodes.find? (fun p => p.1 == k)).map Prod.snd

/-- `G.add_node(k, **d)`: update the attributes of an existing node in
place, or append a new node.  (In the pipeline a re-added node is always
given the same full attribute set, so overwriting coincides with
networkx's dict merge.) -/
def addNode (g : Graph) (k : NodeKey) (d : NodeData) : Graph :=
  if (findNode g k).isSome then
    { g with nodes := g.nodes.map (fun p => if p.1 == k then (k, d) else p) }
  else { g with nodes := g.nodes ++ [(k, d)] }

/-- The part of `G.add_edge` that inserts a missing endpoint into the node
dict with an empty attribute dict. -/
def ensureNode (g : Graph) (k : NodeKey) : Graph :=
  if (findNode g k).isSome then g
  else { g with nodes := g.nodes ++ [(k, {})] }

/-- `G.add_edge(u, v, type=t)`: insert missing endpoints, then add the
edge, or overwrite the attributes of the existing `(u, v)` edge. -/
def addEdge (g : Graph) (u v : NodeKey) (t : String) : Graph :=
  let g2 := ensureNode (ensureNode g u) v
  if g2.edges.any (fun e => e.1 == u && e.2.1 == v) then
    { g2 with
      edges := g2.edges.map
        (fun e => if e.1 == u && e.2.1 == v then (u, v, t) else e) }
  else { g2 with edges := g2.edges ++ [(u, v, t)] }

/-- `G.out_degree(k)`: number of outgoing edges of any type. -/
def outDegree (g : Graph) (k : NodeKey) : Nat :=
  (g.edges.filter (fun e => e.1 == k)).length

/-- `G.in_degree(k)`: number of incoming edges of any type. -/
def inDegree (g : Graph) (k : NodeKey) : Nat :=
  (g.edges.filter (fun e => e.2.1 == k)).length

/-! ## Raw input records (the WordPress REST payloads the builder reads) -/

/-- A raw post record, restricted to the fields `build_content_graph`
reads (`id`, `title['rendered']`, `link`, `content['rendered']`,
`excerpt['rendered']`, `categories`, `tags`, `date`). -/
structure RawPost where
  id : Nat
  title : String
  link : String
  content : String
  excerpt : String
  categories : List Nat
  tags : List Nat
  date : String
deriving Repr

/-- A raw page record (`parent` holds `page.get('parent', 0)`). -/
structure RawPage where
  id : Nat
  title : String
  link : String
  content : String
  parent : Nat
  date : String
deriving Repr

/-- A raw category or tag record. -/
structure RawTerm where
  id : Nat
  name : String
  slug : String
deriving Repr

/-- The `content` dict produced by `fetch_all_content` (the unused
`media` entry is omitted). -/
structure Content where
  posts : List RawPost
  pages : List RawPage
  categories : List RawTerm
  tags : List RawTerm
deriving Repr

/-! ## Graph construction (`build_content_graph` and its two edge passes) -/

/-- `for node_id, data in self.content_graph.nodes(data=True): ...` with a
body that may mutate the graph.  CPython's dict iterator snapshots
nothing: it walks the live dict but raises `RuntimeError` at the first
`next()` call after the dict's size changed (including the final call
that would otherwise end the loop).  `n0` is the size when iteration
began, `keys` the insertion-ordered key list at that moment (keys are
never removed, so the walked entries are exactly the initial ones). -/
def iterNodesGo (body : NodeKey → Graph → Graph) (n0 : Nat) :
    List NodeKey → Graph → Except String Graph
  | keys, g =>
    if g.nodes.length ≠ n0 then
      .error "RuntimeError: dictionary changed size during iteration"
    else
      match keys with
      | [] => .ok g
      | k :: rest => iterNodesGo body n0 rest (body k g)

/-- Iterate the node dict with the live-mutation check. -/
def iterGraphNodes (g : Graph) (body : NodeKey → Graph → Graph) :
    Except String Graph :=
  iterNodesGo body g.nodes.length (g.nodes.map Prod.fst) g

/-- Body of `build_internal_link_edges` for one node (src/app.py:174-184):
if the node has a `content` attribute, extract link-shaped substrings and,
for each, add an `internal_link` edge to the first node whose `url`
attribute equals it (the inner loop breaks at the first hit; no edge when
nothing matches). -/
def internalLinkBody (site_url : String) (k : NodeKey) (g : Graph) : Graph :=
  match findNode g k with
  | none => g
  | some d =>
    match d.content with
    | none => g
    | some c =>
      (find_internal_links site_url c).foldl
        (fun g2 link =>
          match g2.nodes.find? (fun p => p.2.url == some link) with
          | some target => addEdge g2 k target.1 "internal_link"
          | none => g2)
        g

/-- `build_internal_link_edges` (src/app.py:172-184). -/
def build_internal_link_edges (site_url : String) (g : Graph) :
    Except String Graph :=
  iterGraphNodes g (internalLinkBody site_url)

/-- Body of the taxonomy-edge loop for one node (src/app.py:207-213): a
`post`-typed node gets a `categorized_as` edge to `cat_{id}` for each
declared category id and a `tagged_as` edge to `tag_{id}` for each
declared tag id.  `add_edge` inserts the target as a fresh bare node when
no node with that key exists.  (In Python, `data['type']` would raise
`KeyError` on a node with no `type` attribute; nodes built by this
pipeline always carry one, and a bare auto-created node can only be
reached after the size check has already raised, so the `none` branch
below is unreachable in every run the pipeline can produce.) -/
def taxonomyBody (k : NodeKey) (g : Graph) : Graph :=
  match findNode g k with
  | none => g
  | some d =>
    if d.type = some "post" then
      let g2 := d.categories.foldl
        (fun gg c => addEdge gg k (catKey c) "categorized_as") g
      d.tags.foldl (fun gg t => addEdge gg k (tagKey t) "tagged_as") g2
    else g

/-- `build_taxonomy_edges` (src/app.py:186-213): create category and tag
nodes from the raw taxonomy records, then walk the node dict adding
taxonomy edges out of every post. -/
def build_taxonomy_edges (g : Graph) (content : Content) :
    Except String Graph :=
  iterGraphNodes
    (content.tags.foldl
      (fun gg t => addNode gg (tagKey t.id)
        { type := some "tag", name := some t.name, slug := some t.slug })
      (content.categories.foldl
        (fun gg c => addNode gg (catKey c.id)
          { type := some "category", name := some c.name,
            slug := some c.slug })
        g))
    taxonomyBody

/-- Attribute dict of a post node (src/app.py:133-143). -/
def postNodeData (p : RawPost) : NodeData :=
  { type := some "post", title := some p.title, url := some p.link,
    content := some (clean_html p.content),
    excerpt := some (clean_html p.excerpt),
    categories := p.categories, tags := p.tags, date := some p.date }

/-- Attribute dict of a page node (src/app.py:146-155). -/
def pageNodeData (p : RawPage) : NodeData :=
  { type := some "page", title := some p.title, url := some p.link,
    content := some (clean_html p.content),
    parent := some p.parent, date := some p.date }

/-- The node pass of `build_content_graph` (src/app.py:131-155): posts
and pages become nodes; the graph starts empty (one analysis run on a
fresh analyzer instance). -/
def postPageGraph (content : Content) : Graph :=
  content.pages.foldl
    (fun g p => addNode g (pageKey p.id) (pageNodeData p))
    (content.posts.foldl
      (fun g p => addNode g (postKey p.id) (postNodeData p)) ⟨[], []⟩)

/-- `build_content_graph` (src/app.py:127-164): the node pass, then the
internal-link pass, then the taxonomy pass. -/
def build_content_graph (site_url : String) (content : Content) :
    Except String Graph :=
  match build_internal_link_edges site_url (postPageGraph content) with
  | .error e => .error e
  | .ok g3 => build_taxonomy_edges g3 content

/-! ## Depth scorer (`calculate_content_depth`, src/app.py:344-379) -/

/-- The word-count tier: `> 2000 → +0.3`, else `> 1000 → +0.2`, else
`> 500 → +0.1`, else `+0` (src/app.py:349-355). -/
def word_tier (wc : Nat) : ℚ :=
  if 2000 < wc then 0.3 else if 1000 < wc then 0.2
  else if 500 < wc then 0.1 else 0

/-- The depth score as a function of the document features the source
reads: word count, level-2/level-3 heading counts, and the three boolean
indicators.  The additive contributions and the final clamp mirror
src/app.py:346-379 line by line. -/
def depth_features (wc h2 h3 : Nat) (media lists schema : Bool) : ℚ :=
  min (word_tier wc
    + (if 3 < h2 then 0.2 else 0)
    + (if 5 < h3 then 0.1 else 0)
    + (if media then 0.1 else 0)
    + (if lists then 0.1 else 0)
    + (if schema then 0.2 else 0)) 1

/-- `content.count('<h2') + content.count('## ')` (src/app.py:359). -/
def h2_count (content : String) : Nat :=
  countSub "<h2" content + countSub "## " content

/-- `content.count('<h3') + content.count('### ')` (src/app.py:360). -/
def h3_count (content : String) : Nat :=
  countSub "<h3" content + countSub "### " content

/-- `'<img' in content or '[gallery' in content` (src/app.py:368). -/
def media_flag (content : String) : Bool :=
  hasSub "<img" content || hasSub "[gallery" content

/-- `'<ul' in content or '<ol' in content or '- ' in content`
(src/app.py:372). -/
def lists_flag (content : String) : Bool :=
  hasSub "<ul" content || hasSub "<ol" content || hasSub "- " content

/-- `'itemtype' in content or '@type' in content` (src/app.py:376). -/
def schema_flag (content : String) : Bool :=
  hasSub "itemtype" content || hasSub "@type" content

/-- `calculate_content_depth` (src/app.py:344-379), reading
`node_data.get('content', '')`. -/
def calculate_content_depth (d : NodeData) : ℚ :=
  let content := d.content.getD ""
  depth_features (countWords content) (h2_count content) (h3_count content)
    (media_flag content) (lists_flag content) (schema_flag content)

/-! ## Connectivity analyzer (`analyze_content_depth`, src/app.py:305-342) -/

/-- One entry of `depth_analysis['content_scores']` (src/app.py:320-327). -/
structure ScoreRecord where
  title : String
  url : String
  depth_score : ℚ
  word_count : Nat
  internal_links : Nat
  backlinks : Nat
deriving DecidableEq, Repr

/-- The score record of one post/page node. -/
def mkScoreRecord (g : Graph) (k : NodeKey) (d : NodeData) : ScoreRecord :=
  { title := d.title.getD "", url := d.url.getD "",
    depth_score := calculate_content_depth d,
    word_count := countWords (d.content.getD ""),
    internal_links := outDegree g k,
    backlinks := inDegree g k }

/-- `depth_analysis['content_scores']`: one record per post/page node, in
node-dict order.  (In Python this loop reads `data['type']` and, for
post/page nodes, `data['title']` and `data['url']`; nodes built by the
pipeline always carry these, and the record fields default the absent
case.) -/
def content_scores (g : Graph) : List (NodeKey × ScoreRecord) :=
  g.nodes.filterMap (fun p =>
    if p.2.type = some "post" ∨ p.2.type = some "page" then
      some (p.1, mkScoreRecord g p.1 p.2)
    else none)

/-- `depth_analysis['hub_potential']` (src/app.py:330-332):
`internal_links > 5 and depth_score > 0.7`. -/
def hub_potential (g : Graph) : List ScoreRecord :=
  (content_scores g).filterMap (fun p =>
    if 5 < p.2.internal_links ∧ 0.7 < p.2.depth_score then some p.2 else none)

/-- `depth_analysis['orphan_content']` (src/app.py:335-337):
`backlinks == 0 and internal_links < 2`. -/
def orphan_content (g : Graph) : List ScoreRecord :=
  (content_scores g).filterMap (fun p =>
    if p.2.backlinks = 0 ∧ p.2.internal_links < 2 then some p.2 else none)

/-! ## Semantic clusterer (`identify_semantic_clusters`, src/app.py:381-433)

The TF-IDF vectorization and the cosine-similarity matrix are produced by
scikit-learn library calls (`TfidfVectorizer.fit_transform`,
`cosine_similarity`), code outside this repository; the clustering loop
itself (src/app.py:404-429) is what the source defines.  The embedding
therefore takes the document key list together with the similarity matrix
`sim` (indexed like `similarity_matrix[i][j]`) and the per-document theme
extractor `theme` (“`extract_cluster_theme(i, tfidf_matrix)`”) as
parameters and reproduces the loop exactly.  For an actual run, `sim` is
symmetric with non-negative entries and `sim i i = 1` whenever document
`i` has a non-zero vector; no theorem below needs those facts, and the
concrete matrices used in counterexamples are realizable as cosine
similarities of explicit non-negative vectors (given in comments). -/

/-- One entry of `cluster['members']`: a node key with its recorded
similarity to the cluster's center. -/
structure ClusterMember where
  id : NodeKey
  similarity : ℚ
deriving DecidableEq, Repr

/-- One cluster record (`center`, `members`, `theme`). -/
structure Cluster where
  center : NodeKey
  members : List ClusterMember
  theme : List String
deriving DecidableEq, Repr

/-- The member scan for the cluster centered on document `i`: every
document `j` (including `i` itself) with `similarity_matrix[i][j] > 0.3`
(src/app.py:418-423). -/
def clusterMembers (node_ids : List NodeKey) (sim : Nat → Nat → ℚ)
    (i : Nat) : List ClusterMember :=
  node_ids.enum.filterMap (fun p =>
    if 0.3 < sim i p.1 then some ⟨p.2, sim i p.1⟩ else none)

/-- The greedy clustering loop (src/app.py:408-427): walk documents in
order; skip one already in `visited`; otherwise open a cluster centered
on it, collect every document with similarity above the threshold as a
member, add each member to `visited`, and keep the cluster only when it
has more than one member.  (`visited` is a Python set used only for
membership tests, so a list with `∈` models it.) -/
def cluster_go (node_ids : List NodeKey) (sim : Nat → Nat → ℚ)
    (theme : Nat → List String) :
    List (Nat × NodeKey) → List NodeKey → List Cluster
  | [], _ => []
  | (i, k) :: rest, visited =>
    if k ∈ visited then cluster_go node_ids sim theme rest visited
    else
      let members := clusterMembers node_ids sim i
      let visited2 := visited ++ members.map (·.id)
      if 1 < members.length then
        ⟨k, members, theme i⟩ :: cluster_go node_ids sim theme rest visited2
      else cluster_go node_ids sim theme rest visited2

/-- `identify_semantic_clusters` (src/app.py:381-433) relative to the
library-produced similarity matrix and theme extractor: empty document
list gives an empty cluster list (src/app.py:394-395), otherwise the
greedy loop runs.  (The `except` fallback around the library calls,
returning `[]`, concerns only library failures such as an empty TF-IDF
vocabulary and is outside the loop being verified.) -/
def identify_semantic_clusters (node_ids : List NodeKey)
    (sim : Nat → Nat → ℚ) (theme : Nat → List String) : List Cluster :=
  if node_ids.isEmpty then []
  else cluster_go node_ids sim theme node_ids.enum []

/-- The documents eligible for clustering (src/app.py:389-392): post/page
nodes with truthy (non-empty) `content`, in node-dict order. -/
def cluster_inputs (g : Graph) : List (NodeKey × String) :=
  g.nodes.filterMap (fun p =>
    match p.2.content with
    | some c =>
      if (p.2.type = some "post" ∨ p.2.type = some "page") ∧ c ≠ "" then
        some (p.1, c)
      else none
    | none => none)

/-! ## Recommendation synthesizer (src/app.py:480-557) -/

/-- One recommendation record.  `url` is only present on orphan and hub
recommendations. -/
structure Recommendation where
  rtype : String
  priority : String
  action : String
  details : String
  impact : String
  url : Option String := none
deriving DecidableEq, Repr

/-- The slice of `query_patterns` that `generate_recommendations` reads:
`gaps`, which is present only when the language-model collaborator's
parsed response contained it (`if 'gaps' in query_patterns`). -/
structure QueryPatterns where
  gaps : Option (List String)
deriving Repr

/-- The slice of `depth_analysis` that `generate_recommendations` reads. -/
structure DepthAnalysis where
  orphan_content : List ScoreRecord
  hub_potential : List ScoreRecord
  semantic_clusters : List Cluster
deriving Repr

/-- `generate_recommendations` (src/app.py:480-527): content-gap items
(priority `high`), then the first five orphans (`medium`), the first
three hubs (`high`), and the first three clusters (`medium`). -/
def generate_recommendations (qp : QueryPatterns) (da : DepthAnalysis) :
    List Recommendation :=
  (match qp.gaps with
   | some gs => gs.map (fun gap =>
      { rtype := "content_gap", priority := "high",
        action := "Create new content",
        details := "Create content to answer sub-query: " ++ gap,
        impact := "Enables multi-hop reasoning path" })
   | none => [])
  ++ (da.orphan_content.take 5).map (fun o =>
      { rtype := "orphan_content", priority := "medium",
        action := "Add internal links",
        details := "Connect orphan content: " ++ o.title,
        url := some o.url,
        impact := "Improves content graph connectivity" })
  ++ (da.hub_potential.take 3).map (fun h =>
      { rtype := "hub_optimization", priority := "high",
        action := "Enhance hub page",
        details := "Optimize hub potential: " ++ h.title,
        url := some h.url,
        impact := "Strengthens multi-source selection" })
  ++ (da.semantic_clusters.take 3).map (fun c =>
      { rtype := "semantic_bridge", priority := "medium",
        action := "Create semantic bridges",
        details := "Link related content in cluster: "
          ++ String.intercalate ", " c.theme,
        impact := "Enables query fan-out paths" })

/-- One entry of an action-plan bucket (src/app.py:539-543). -/
structure ActionItem where
  action : String
  details : String
  expected_impact : String
deriving DecidableEq, Repr

/-- The three buckets of `create_action_plan`. -/
structure ActionPlan where
  immediate : List ActionItem
  short_term : List ActionItem
  long_term : List ActionItem
deriving DecidableEq, Repr

/-- Bucket entry built from a recommendation. -/
def toActionItem (r : Recommendation) : ActionItem :=
  { action := r.action, details := r.details, expected_impact := r.impact }

/-- `create_action_plan` (src/app.py:529-557): partition the
recommendations by priority (`high` → immediate, `medium` → short_term,
anything else → long_term), keeping relative order. -/
def create_action_plan : List Recommendation → ActionPlan
  | [] => ⟨[], [], []⟩
  | r :: rs =>
    let p := create_action_plan rs
    if r.priority = "high" then
      { p with immediate := toActionItem r :: p.immediate }
    else if r.priority = "medium" then
      { p with short_term := toActionItem r :: p.short_term }
    else
      { p with long_term := toActionItem r :: p.long_term }

/-! ## Measurement definitions used by the theorem statements -/

/-- Some node of `g` carries key `k`. -/
def keyPresent (g : Graph) (k : NodeKey) : Prop := ∃ q ∈ g.nodes, q.1 = k

/-- `g` has an edge (of some type) from `u` to `v`. -/
def hasEdgePair (g : Graph) (u v : NodeKey) : Prop :=
  ∃ e ∈ g.edges, e.1 = u ∧ e.2.1 = v

/-- All edges out of `k`, in storage order. -/
def srcSlice (g : Graph) (k : NodeKey) : List (NodeKey × NodeKey × String) :=
  g.edges.filter (fun e => e.1 == k)

/-- Number of outgoing `categorized_as` edges of node `k`. -/
def countCategorizedAs (g : Graph) (k : NodeKey) : Nat :=
  (g.edges.filter (fun e => e.1 == k && e.2.2 == "categorized_as")).length

/-- Decimal value of a digit character (inverse of `Nat.digitChar` below
`10`); used to recover a number from its printed form. -/
def digitVal (c : Char) : Nat := c.toNat - 48

/-- One step of reading a decimal string back into a number. -/
def parseStep (a : Nat) (c : Char) : Nat := 10 * a + digitVal c

/-! ## Concrete inputs used in counterexamples and witnesses -/

/-- Cosine-similarity matrix of the document vectors `(1,0)`, `(4,3)`,
`(0,1)` (exactly: `sim 0 1 = 4/5`, `sim 1 2 = 3/5`, `sim 0 2 = 0`). -/
def simA (i j : Nat) : ℚ :=
  (([[1, 4/5, 0], [4/5, 1, 3/5], [0, 3/5, 1]] : List (List ℚ)).getD i []).getD j 0

/-- Cosine-similarity matrix of the document vectors `(4,3)`, `(1,0)`,
`(0,1)`: the first document is similar to both others (`4/5`, `3/5`),
which are orthogonal to each other. -/
def simB (i j : Nat) : ℚ :=
  (([[1, 4/5, 3/5], [4/5, 1, 0], [3/5, 0, 1]] : List (List ℚ)).getD i []).getD j 0

/-- Three document node keys. -/
def idsA : List NodeKey := [.num 1, .num 2, .num 3]

/-- A trivial theme extractor. -/
def theme0 : Nat → List String := fun _ => []

/-- A site URL for concrete graph builds. -/
def siteU : String := "https://example.com"

/-- One post declaring tag `77` while the input carries no tag records:
the declared tag id resolves to no node. -/
def content_tag77 : Content :=
  ⟨[⟨1, "A", "https://example.com/a", "", "", [], [77], "2024-01-01"⟩],
   [], [], []⟩

/-- One post declaring category `99` while the input carries no category
records: the declared category id resolves to no node. -/
def content_cat99 : Content :=
  ⟨[⟨1, "A", "https://example.com/a", "", "", [99], [], "2024-01-01"⟩],
   [], [], []⟩

/-- A post node with empty body. -/
def d7 : NodeData :=
  { type := some "post", title := some "t", url := some "u",
    content := some "" }

/-- A one-node graph with no edges: in-degree 0 and out-degree 0. -/
def g7 : Graph := ⟨[(postKey 1, d7)], []⟩

/-- Marker block for the all-bonus document: four `<h2`, six `### ` (each of
which also contains one `## `), an image tag, a bullet, and a schema
indicator. -/
def bigMarkers : String := "<h2<h2<h2<h2 ### ### ### ### ### ### <img - itemtype"

/-- A document body with 2001 one-letter words followed by the markers:
word count above 2000 and all five bonus conditions satisfied. -/
def bigContent : String :=
  ⟨(List.replicate 2001 ['w', ' ']).flatten ++ bigMarkers.data⟩

/-- Node data holding the all-bonus document. -/
def bigData : NodeData := { content := some bigContent }

/-- A graph with a single post declaring categories `[5, 5, 8]` (one
duplicate) and tag `[3]`. -/
def gW : Graph :=
  ⟨[(postKey 1, { type := some "post", categories := [5, 5, 8], tags := [3] })],
   []⟩

/-- Taxonomy records resolving every id declared in `gW`. -/
def contentW : Content :=
  ⟨[], [], [⟨5, "n5", "s5"⟩, ⟨8, "n8", "s8"⟩], [⟨3, "t3", "s3"⟩]⟩

/-! # Theorems

Helper lemmas first, then one named theorem per claim (with witness or
counterexample theorems where required). -/

/-! ## Clustering helpers -/

/-- A cluster emitted by the loop was centered on a document that was not
yet visited when its turn came. -/
theorem cluster_go_center_not_visited (node_ids : List NodeKey)
    (sim : Nat → Nat → ℚ) (theme : Nat → List String) :
    ∀ (rest : List (Nat × NodeKey)) (visited : List NodeKey) (c : Cluster),
      c ∈ cluster_go node_ids sim theme rest visited → c.center ∉ visited := by
  intro rest
  induction rest with
  | nil => intro v c h; simp [cluster_go] at h
  | cons p rest ih =>
    obtain ⟨i, k⟩ := p
    intro v c h
    simp only [cluster_go] at h
    by_cases hk : k ∈ v
    · rw [if_pos hk] at h; exact ih v c h
    · rw [if_neg hk] at h
      by_cases hl : 1 < (clusterMembers node_ids sim i).length
      · rw [if_pos hl] at h
        rcases List.mem_cons.mp h with rfl | h2
        · simpa using hk
        · intro hc
          exact ih _ c h2 (List.mem_append_left _ hc)
      · rw [if_neg hl] at h
        intro hc
        exact ih _ c h (List.mem_append_left _ hc)

/-- Along the emitted cluster list, a later cluster's center is never a
member of an earlier cluster: the loop marks every member visited and
never opens a cluster on a visited document. -/
theorem cluster_go_pairwise (node_ids : List NodeKey)
    (sim : Nat → Nat → ℚ) (theme : Nat → List String) :
    ∀ (rest : List (Nat × NodeKey)) (visited : List NodeKey),
      List.Pairwise (fun c₁ c₂ => c₂.center ∉ c₁.members.map ClusterMember.id)
        (cluster_go node_ids sim theme rest visited) := by
  intro rest
  induction rest with
  | nil => intro v; simp [cluster_go]
  | cons p rest ih =>
    obtain ⟨i, k⟩ := p
    intro v
    simp only [cluster_go]
    by_cases hk : k ∈ v
    · rw [if_pos hk]; exact ih v
    · rw [if_neg hk]
      by_cases hl : 1 < (clusterMembers node_ids sim i).length
      · rw [if_pos hl]
        refine List.Pairwise.cons ?_ (ih _)
        intro c hc hmem
        exact cluster_go_center_not_visited node_ids sim theme _ _ c hc
          (List.mem_append_right _ hmem)
      · rw [if_neg hl]; exact ih _

/-- Every member collected for a center passed the threshold test. -/
theorem cluster_members_sim (node_ids : List NodeKey) (sim : Nat → Nat → ℚ)
    (i : Nat) (m : ClusterMember) (h : m ∈ clusterMembers node_ids sim i) :
    0.3 < m.similarity := by
  unfold clusterMembers at h
  obtain ⟨p, _, hp⟩ := List.mem_filterMap.mp h
  by_cases hc : 0.3 < sim i p.1
  · rw [if_pos hc] at hp
    cases hp; exact hc
  · rw [if_neg hc] at hp; cases hp

/-- Every member of every emitted cluster passed the threshold test
against its own cluster's center. -/
theorem cluster_go_member_sim (node_ids : List NodeKey)
    (sim : Nat → Nat → ℚ) (theme : Nat → List String) :
    ∀ (rest : List (Nat × NodeKey)) (visited : List NodeKey)
      (c : Cluster) (m : ClusterMember),
      c ∈ cluster_go node_ids sim theme rest visited → m ∈ c.members →
      0.3 < m.similarity := by
  intro rest
  induction rest with
  | nil => intro v c m h; simp [cluster_go] at h
  | cons p rest ih =>
    obtain ⟨i, k⟩ := p
    intro v c m h hm
    simp only [cluster_go] at h
    by_cases hk : k ∈ v
    · rw [if_pos hk] at h; exact ih v c m h hm
    · rw [if_neg hk] at h
      by_cases hl : 1 < (clusterMembers node_ids sim i).length
      · rw [if_pos hl] at h
        rcases List.mem_cons.mp h with rfl | h2
        · exact cluster_members_sim node_ids sim i m hm
        · exact ih _ c m h2 hm
      · rw [if_neg hl] at h
        exact ih _ c m h hm

/-! ## Claim C1 — cluster memberships are (not) disjoint -/

set_option maxRecDepth 4000 in
/-- Claim C1 as stated is false: on the document keys `idsA` with the
realizable cosine matrix `simA` (vectors `(1,0)`, `(4,3)`, `(0,1)`), the
clusterer returns two distinct clusters that share member `.num 2`.  The
loop checks `visited` only when choosing a center (src/app.py:409), never
when collecting members (src/app.py:418-424), so document 2 — already a
member of the cluster centered on document 1 — is collected again by the
cluster centered on document 3. -/
theorem c1_cluster_membership_not_disjoint :
    ¬ (∀ c₁ ∈ identify_semantic_clusters idsA simA theme0,
       ∀ c₂ ∈ identify_semantic_clusters idsA simA theme0,
       c₁ ≠ c₂ → ∀ m₁ ∈ c₁.members, ∀ m₂ ∈ c₂.members, m₁.id ≠ m₂.id) := by
  intro h
  have hres : identify_semantic_clusters idsA simA theme0 =
      [⟨.num 1, [⟨.num 1, 1⟩, ⟨.num 2, 4/5⟩], []⟩,
       ⟨.num 3, [⟨.num 2, 3/5⟩, ⟨.num 3, 1⟩], []⟩] := by
    norm_num [identify_semantic_clusters, cluster_go, clusterMembers, idsA,
      simA, theme0, List.enum, List.enumFrom, List.filterMap]
  rw [hres] at h
  exact h ⟨.num 1, [⟨.num 1, 1⟩, ⟨.num 2, 4/5⟩], []⟩ (by simp)
    ⟨.num 3, [⟨.num 2, 3/5⟩, ⟨.num 3, 1⟩], []⟩ (by simp)
    (by simp) ⟨.num 2, 4/5⟩ (by simp) ⟨.num 2, 3/5⟩ (by simp) rfl

/-- Claim C1, amended: memberships of distinct clusters can overlap; what
the visitation rule does guarantee is that the center of every later
cluster in the returned list is not a member of any earlier cluster (so
in particular no document seeds two clusters). -/
theorem c1_later_center_not_member_of_earlier_cluster
    (node_ids : List NodeKey) (sim : Nat → Nat → ℚ)
    (theme : Nat → List String) :
    List.Pairwise (fun c₁ c₂ => c₂.center ∉ c₁.members.map ClusterMember.id)
      (identify_semantic_clusters node_ids sim theme) := by
  unfold identify_semantic_clusters
  by_cases he : node_ids.isEmpty
  · rw [if_pos he]; exact List.Pairwise.nil
  · rw [if_neg he]; exact cluster_go_pairwise node_ids sim theme _ _

/-! ## Claim C4 — pairwise similarity of co-members -/

set_option maxRecDepth 4000 in
/-- Claim C4 as stated is false: with the realizable cosine matrix `simB`
(vectors `(4,3)`, `(1,0)`, `(0,1)`), documents 2 and 3 are both members
of the single returned cluster (centered on document 1) although their
pairwise similarity is `0 ≤ 0.3`.  Membership only requires similarity
to the center (src/app.py:419), not to the other members. -/
theorem c4_comembers_similarity_not_above_threshold :
    ¬ (∀ c ∈ identify_semantic_clusters idsA simB theme0,
       ∀ m₁ ∈ c.members, ∀ m₂ ∈ c.members, m₁.id ≠ m₂.id →
       0.3 < simB (idsA.indexOf m₁.id) (idsA.indexOf m₂.id)) := by
  intro h
  have hres : identify_semantic_clusters idsA simB theme0 =
      [⟨.num 1, [⟨.num 1, 1⟩, ⟨.num 2, 4/5⟩, ⟨.num 3, 3/5⟩], []⟩] := by
    norm_num [identify_semantic_clusters, cluster_go, clusterMembers, idsA,
      simB, theme0, List.enum, List.enumFrom, List.filterMap]
  rw [hres] at h
  have h2 := h ⟨.num 1, [⟨.num 1, 1⟩, ⟨.num 2, 4/5⟩, ⟨.num 3, 3/5⟩], []⟩
    (by simp) ⟨.num 2, 4/5⟩ (by simp) ⟨.num 3, 3/5⟩ (by simp) (by simp)
  rw [show idsA.indexOf (NodeKey.num 2) = 1 by decide,
      show idsA.indexOf (NodeKey.num 3) = 2 by decide] at h2
  norm_num [simB] at h2

/-- Claim C4, amended: what the threshold does gate is the similarity to
the cluster's own center — every member of every returned cluster has
its recorded similarity (to the center) strictly greater than `0.3`;
co-members need not be pairwise similar. -/
theorem c4_member_similarity_to_center_above_threshold
    (node_ids : List NodeKey) (sim : Nat → Nat → ℚ)
    (theme : Nat → List String) (c : Cluster) (m : ClusterMember)
    (hc : c ∈ identify_semantic_clusters node_ids sim theme)
    (hm : m ∈ c.members) : 0.3 < m.similarity := by
  unfold identify_semantic_clusters at hc
  by_cases he : node_ids.isEmpty
  · rw [if_pos he] at hc; cases hc
  · rw [if_neg he] at hc
    exact cluster_go_member_sim node_ids sim theme _ _ c m hc hm

set_option maxRecDepth 4000 in
/-- Witness for the amended C4 theorem at a concrete run: member
`(.num 2, 4/5)` of the first cluster of the `simA` run. -/
theorem c4_member_similarity_witness : (0.3 : ℚ) < 4/5 :=
  c4_member_similarity_to_center_above_threshold idsA simA theme0
    ⟨.num 1, [⟨.num 1, 1⟩, ⟨.num 2, 4/5⟩], []⟩ ⟨.num 2, 4/5⟩
    (by
      have hres : identify_semantic_clusters idsA simA theme0 =
          [⟨.num 1, [⟨.num 1, 1⟩, ⟨.num 2, 4/5⟩], []⟩,
           ⟨.num 3, [⟨.num 2, 3/5⟩, ⟨.num 3, 1⟩], []⟩] := by
        norm_num [identify_semantic_clusters, cluster_go, clusterMembers,
          idsA, simA, theme0, List.enum, List.enumFrom, List.filterMap]
      rw [hres]; simp)
    (by simp)

/-! ## Claim C9 — determinism of the clusterer -/

/-- Claim C9: the clusterer is deterministic.  In this embedding the loop
is a pure function of the document list, the similarity matrix and the
theme extractor — its only run state (`visited`, iteration order) is
explicit — so two runs on identical input are definitionally equal.  The
Python loop has no other state: `visited` is a set used solely for
membership tests, iteration order is the list order, and the library
calls producing `sim` and `theme` are fixed by the same input. -/
theorem c9_clusterer_deterministic (node_ids : List NodeKey)
    (sim : Nat → Nat → ℚ) (theme : Nat → List String) :
    identify_semantic_clusters node_ids sim theme =
      identify_semantic_clusters node_ids sim theme := rfl

/-! ## Depth scorer helpers -/

/-- The word-count tier is non-negative. -/
theorem word_tier_nonneg (wc : Nat) : 0 ≤ word_tier wc := by
  unfold word_tier; split_ifs <;> norm_num

/-- The word-count tier is monotone in the word count. -/
theorem word_tier_mono {w1 w2 : Nat} (h : w1 ≤ w2) :
    word_tier w1 ≤ word_tier w2 := by
  unfold word_tier
  split_ifs <;> (try norm_num) <;> omega

/-- The depth score is non-negative. -/
theorem depth_features_nonneg (wc h2 h3 : Nat) (m l s : Bool) :
    0 ≤ depth_features wc h2 h3 m l s := by
  unfold depth_features
  refine le_min ?_ (by norm_num)
  have h := word_tier_nonneg wc
  split_ifs <;> linarith

/-! ## Claim C6 — depth score is clamped to `[0, 1]` -/

/-- Claim C6: the depth score is `min(sum of contributions, 1.0)`, hence
always in `[0, 1]`; and a document with more than 2000 words satisfying
all five bonus conditions (`h2 > 3`, `h3 > 5`, media, lists, schema)
scores exactly `1` (the contributions sum to `1.1`, clamped to `1`; in
Python's float arithmetic the sum is likewise `≥ 1.0`, so `min` also
returns exactly `1.0` there). -/
theorem c6_depth_score_clamped :
    (∀ d : NodeData,
      0 ≤ calculate_content_depth d ∧ calculate_content_depth d ≤ 1) ∧
    (∀ d : NodeData,
      2000 < countWords (d.content.getD "") →
      3 < h2_count (d.content.getD "") →
      5 < h3_count (d.content.getD "") →
      media_flag (d.content.getD "") = true →
      lists_flag (d.content.getD "") = true →
      schema_flag (d.content.getD "") = true →
      calculate_content_depth d = 1) := by
  constructor
  · intro d
    exact ⟨depth_features_nonneg _ _ _ _ _ _, min_le_right _ _⟩
  · intro d hw hh2 hh3 hm hl hs
    show depth_features _ _ _ _ _ _ = 1
    unfold depth_features word_tier
    rw [if_pos hw, if_pos hh2, if_pos hh3, hm, hl, hs]
    norm_num

/-- A non-empty pattern whose first character is not `c` matches no text
starting with `c`. -/
theorem isPrefixOf_false_of_head_ne {pat : List Char} {c : Char}
    (cs : List Char) (h : pat.head? ≠ some c) (hne : pat ≠ []) :
    pat.isPrefixOf (c :: cs) = false := by
  cases pat with
  | nil => exact absurd rfl hne
  | cons p ps =>
    have hp : (p == c) = false := by
      refine beq_eq_false_iff_ne.mpr (fun hh => h ?_)
      rw [List.head?, hh]
    simp [List.isPrefixOf, hp]

/-- Word counting walks through the `"w "`-prefix one word at a time. -/
theorem countWordsAux_skip (n : Nat) (rest : List Char) :
    countWordsAux false ((List.replicate n ['w', ' ']).flatten ++ rest) =
      n + countWordsAux false rest := by
  induction n with
  | zero => simp
  | succ m ih =>
    rw [List.replicate_succ, List.flatten_cons]
    show 1 + countWordsAux false ((List.replicate m ['w', ' ']).flatten ++ rest) =
      (m + 1) + countWordsAux false rest
    rw [ih]
    omega

/-- Substring counting finds no match inside the `"w "`-prefix when the
pattern starts with neither `'w'` nor `' '`. -/
theorem countSubF_skip (pat : List Char) (hw : pat.head? ≠ some 'w')
    (hs : pat.head? ≠ some ' ') (hne : pat ≠ []) (n : Nat) :
    ∀ (fuel : Nat) (rest : List Char),
      countSubF pat (2 * n + fuel)
        ((List.replicate n ['w', ' ']).flatten ++ rest) =
      countSubF pat fuel rest := by
  induction n with
  | zero => intro fuel rest; simp
  | succ m ih =>
    intro fuel rest
    rw [List.replicate_succ, List.flatten_cons]
    have h2 : 2 * (m + 1) + fuel = (2 * m + fuel) + 1 + 1 := by ring
    rw [h2]
    show countSubF pat ((2 * m + fuel) + 1 + 1)
        ('w' :: ' ' :: ((List.replicate m ['w', ' ']).flatten ++ rest)) =
      countSubF pat fuel rest
    rw [countSubF, isPrefixOf_false_of_head_ne _ hw hne]
    simp only [Bool.false_eq_true, if_false]
    rw [countSubF, isPrefixOf_false_of_head_ne _ hs hne]
    simp only [Bool.false_eq_true, if_false]
    exact ih fuel rest

/-- Substring containment likewise skips the `"w "`-prefix. -/
theorem hasSubAux_skip (pat : List Char) (hw : pat.head? ≠ some 'w')
    (hs : pat.head? ≠ some ' ') (hne : pat ≠ []) (n : Nat) (rest : List Char) :
    hasSubAux pat ((List.replicate n ['w', ' ']).flatten ++ rest) =
      hasSubAux pat rest := by
  induction n with
  | zero => simp
  | succ m ih =>
    rw [List.replicate_succ, List.flatten_cons]
    show hasSubAux pat
        ('w' :: ' ' :: ((List.replicate m ['w', ' ']).flatten ++ rest)) =
      hasSubAux pat rest
    rw [hasSubAux, isPrefixOf_false_of_head_ne _ hw hne]
    rw [hasSubAux, isPrefixOf_false_of_head_ne _ hs hne]
    simp only [Bool.false_or]
    exact ih

/-- The `"w "`-prefix of the all-bonus document contributes `2 n`
characters. -/
theorem flatten_replicate_length (n : Nat) :
    ((List.replicate n ['w', ' ']).flatten).length = 2 * n := by
  induction n with
  | zero => simp
  | succ m ih => rw [List.replicate_succ, List.flatten_cons]; simp [ih]; omega

/-- Word count of the all-bonus document: the 2001 `"w "` words plus the
words of the marker block. -/
theorem countWords_bigContent :
    countWords bigContent = 2001 + countWords bigMarkers := by
  show countWordsAux false bigContent.data = 2001 + countWordsAux false bigMarkers.data
  have : bigContent.data =
      (List.replicate 2001 ['w', ' ']).flatten ++ bigMarkers.data := rfl
  rw [this, countWordsAux_skip]

/-- Substring counts over the all-bonus document reduce to the marker
block for the patterns the scorer uses. -/
theorem countSub_bigContent (pat : String) (hw : pat.data.head? ≠ some 'w')
    (hs : pat.data.head? ≠ some ' ') (hne : pat.data ≠ []) :
    countSub pat bigContent = countSub pat bigMarkers := by
  unfold countSub
  rw [if_neg (by simp [hne]), if_neg (by simp [hne])]
  have hdata : bigContent.data =
      (List.replicate 2001 ['w', ' ']).flatten ++ bigMarkers.data := rfl
  rw [hdata, List.length_append, flatten_replicate_length,
    countSubF_skip pat.data hw hs hne 2001]

/-- Substring containment over the all-bonus document reduces to the
marker block. -/
theorem hasSub_bigContent (pat : String) (hw : pat.data.head? ≠ some 'w')
    (hs : pat.data.head? ≠ some ' ') (hne : pat.data ≠ []) :
    hasSub pat bigContent = hasSub pat bigMarkers := by
  unfold hasSub
  have hdata : bigContent.data =
      (List.replicate 2001 ['w', ' ']).flatten ++ bigMarkers.data := rfl
  rw [hdata, hasSubAux_skip pat.data hw hs hne]

/-- Witness for C6 at a concrete document: 2001 one-letter words plus all
five bonus markers score exactly `1`. -/
theorem c6_depth_score_witness : calculate_content_depth bigData = 1 :=
  c6_depth_score_clamped.2 bigData
    (by
      show 2000 < countWords bigContent
      rw [countWords_bigContent]; omega)
    (by
      show 3 < h2_count bigContent
      unfold h2_count
      rw [countSub_bigContent _ (by decide) (by decide) (by decide),
          countSub_bigContent _ (by decide) (by decide) (by decide)]
      decide)
    (by
      show 5 < h3_count bigContent
      unfold h3_count
      rw [countSub_bigContent _ (by decide) (by decide) (by decide),
          countSub_bigContent _ (by decide) (by decide) (by decide)]
      decide)
    (by
      show media_flag bigContent = true
      unfold media_flag
      rw [hasSub_bigContent _ (by decide) (by decide) (by decide),
          hasSub_bigContent _ (by decide) (by decide) (by decide)]
      decide)
    (by
      show lists_flag bigContent = true
      unfold lists_flag
      rw [hasSub_bigContent _ (by decide) (by decide) (by decide),
          hasSub_bigContent _ (by decide) (by decide) (by decide),
          hasSub_bigContent _ (by decide) (by decide) (by decide)]
      decide)
    (by
      show schema_flag bigContent = true
      unfold schema_flag
      rw [hasSub_bigContent _ (by decide) (by decide) (by decide),
          hasSub_bigContent _ (by decide) (by decide) (by decide)]
      decide)

/-! ## Claim C8 — depth score monotone in word count -/

/-- Claim C8: holding every non-word-count feature fixed, the depth score
is monotonically non-decreasing in the word count, and the word-count
contribution is exactly one tier: `+0.3` for `> 2000`, else `+0.2` for
`> 1000`, else `+0.1` for `> 500`, else `+0`.  The first conjunct ties
`calculate_content_depth` to the feature form the other conjuncts use. -/
theorem c8_depth_monotone_in_word_count :
    (∀ d : NodeData, calculate_content_depth d =
      depth_features (countWords (d.content.getD ""))
        (h2_count (d.content.getD "")) (h3_count (d.content.getD ""))
        (media_flag (d.content.getD "")) (lists_flag (d.content.getD ""))
        (schema_flag (d.content.getD ""))) ∧
    (∀ (w₁ w₂ h2 h3 : Nat) (m l s : Bool), w₁ ≤ w₂ →
      depth_features w₁ h2 h3 m l s ≤ depth_features w₂ h2 h3 m l s) ∧
    (∀ w : Nat,
      (2000 < w → word_tier w = 0.3) ∧
      (1000 < w → w ≤ 2000 → word_tier w = 0.2) ∧
      (500 < w → w ≤ 1000 → word_tier w = 0.1) ∧
      (w ≤ 500 → word_tier w = 0)) := by
  refine ⟨fun d => rfl, fun w₁ w₂ h2 h3 m l s h => ?_, fun w => ?_⟩
  · unfold depth_features
    have hm := word_tier_mono h
    exact min_le_min (by linarith) le_rfl
  · refine ⟨fun h1 => ?_, fun h1 h2' => ?_, fun h1 h2' => ?_, fun h1 => ?_⟩
    · unfold word_tier; rw [if_pos h1]
    · unfold word_tier; rw [if_neg (by omega), if_pos h1]
    · unfold word_tier; rw [if_neg (by omega), if_neg (by omega), if_pos h1]
    · unfold word_tier
      rw [if_neg (by omega), if_neg (by omega), if_neg (by omega)]

/-- Witness for C8 at concrete word counts: `600 ≤ 1500` words (other
features fixed at zero) gives a non-decreasing score, and 2500 words sit
in the `+0.3` tier. -/
theorem c8_depth_monotone_witness :
    depth_features 600 0 0 false false false ≤
      depth_features 1500 0 0 false false false ∧
    word_tier 2500 = 0.3 :=
  ⟨c8_depth_monotone_in_word_count.2.1 600 1500 0 0 false false false
      (by norm_num),
   (c8_depth_monotone_in_word_count.2.2 2500).1 (by norm_num)⟩

/-! ## Claim C7 — hub and orphan classification -/

/-- Membership in the hub list characterized by the hub predicate. -/
theorem mem_hub_potential (g : Graph) (s : ScoreRecord) :
    s ∈ hub_potential g ↔
      ∃ k, (k, s) ∈ content_scores g ∧
        5 < s.internal_links ∧ 0.7 < s.depth_score := by
  unfold hub_potential
  rw [List.mem_filterMap]
  constructor
  · rintro ⟨⟨k, r⟩, hm, hf⟩
    by_cases hp : 5 < r.internal_links ∧ 0.7 < r.depth_score
    · rw [if_pos hp] at hf
      obtain rfl := Option.some.inj hf
      exact ⟨k, hm, hp⟩
    · rw [if_neg hp] at hf; cases hf
  · rintro ⟨k, hm, hp⟩
    exact ⟨(k, s), hm, by rw [if_pos hp]⟩

/-- Membership in the orphan list characterized by the orphan predicate. -/
theorem mem_orphan_content (g : Graph) (s : ScoreRecord) :
    s ∈ orphan_content g ↔
      ∃ k, (k, s) ∈ content_scores g ∧
        s.backlinks = 0 ∧ s.internal_links < 2 := by
  unfold orphan_content
  rw [List.mem_filterMap]
  constructor
  · rintro ⟨⟨k, r⟩, hm, hf⟩
    by_cases hp : r.backlinks = 0 ∧ r.internal_links < 2
    · rw [if_pos hp] at hf
      obtain rfl := Option.some.inj hf
      exact ⟨k, hm, hp⟩
    · rw [if_neg hp] at hf; cases hf
  · rintro ⟨k, hm, hp⟩
    exact ⟨(k, s), hm, by rw [if_pos hp]⟩

/-- Claim C7: a record is in the hub list iff it is a post/page score
record with `outDegree > 5` and `depthScore > 0.7`, and in the orphan
list iff `inDegree = 0` and `outDegree < 2`; in particular a scored node
with in-degree 0 and out-degree 0 is an orphan, while any record with
out-degree 2 is not. -/
theorem c7_hub_orphan_classification (g : Graph) (s : ScoreRecord) :
    (s ∈ hub_potential g ↔
      ∃ k, (k, s) ∈ content_scores g ∧
        5 < s.internal_links ∧ 0.7 < s.depth_score) ∧
    (s ∈ orphan_content g ↔
      ∃ k, (k, s) ∈ content_scores g ∧
        s.backlinks = 0 ∧ s.internal_links < 2) ∧
    (∀ k, (k, s) ∈ content_scores g → s.backlinks = 0 →
      s.internal_links = 0 → s ∈ orphan_content g) ∧
    (s.internal_links = 2 → s ∉ orphan_content g) := by
  refine ⟨mem_hub_potential g s, mem_orphan_content g s,
    fun k hk hb hi => ?_, fun h2 hmem => ?_⟩
  · exact (mem_orphan_content g s).mpr ⟨k, hk, hb, by omega⟩
  · obtain ⟨k, _, _, hlt⟩ := (mem_orphan_content g s).mp hmem
    omega

/-- Witness for C7 on the one-node, zero-edge graph `g7`: the record of
the node (in-degree 0, out-degree 0) is classified orphan, and a record
with out-degree 2 is not. -/
theorem c7_hub_orphan_witness :
    (⟨"t", "u", 0, 0, 0, 0⟩ : ScoreRecord) ∈ orphan_content g7 ∧
    (⟨"x", "y", 0, 0, 2, 0⟩ : ScoreRecord) ∉ orphan_content g7 :=
  ⟨(c7_hub_orphan_classification g7 ⟨"t", "u", 0, 0, 0, 0⟩).2.2.1
      (postKey 1)
      (by
        have hcalc : calculate_content_depth d7 = 0 := by
          show depth_features 0 0 0 false false false = 0
          unfold depth_features word_tier
          norm_num
        have hcs : content_scores g7 =
            [(postKey 1, ⟨"t", "u", calculate_content_depth d7, 0, 0, 0⟩)] :=
          rfl
        rw [hcs, hcalc]
        exact List.mem_singleton.mpr rfl)
      rfl rfl,
   (c7_hub_orphan_classification g7 ⟨"x", "y", 0, 0, 2, 0⟩).2.2.2 rfl⟩

/-! ## Claim C10 — recommendation priorities and the long-term bucket -/

/-- Every recommendation the synthesizer emits carries priority `high`
or `medium`. -/
theorem generate_recommendations_priority (qp : QueryPatterns)
    (da : DepthAnalysis) (r : Recommendation)
    (h : r ∈ generate_recommendations qp da) :
    r.priority = "high" ∨ r.priority = "medium" := by
  unfold generate_recommendations at h
  rcases List.mem_append.mp h with h1 | h4
  · rcases List.mem_append.mp h1 with h2 | h3
    · rcases List.mem_append.mp h2 with h5 | h6
      · cases hg : qp.gaps with
        | none => rw [hg] at h5; cases h5
        | some gs =>
          rw [hg] at h5
          obtain ⟨_, _, rfl⟩ := List.mem_map.mp h5
          exact Or.inl rfl
      · obtain ⟨_, _, rfl⟩ := List.mem_map.mp h6
        exact Or.inr rfl
    · obtain ⟨_, _, rfl⟩ := List.mem_map.mp h3
      exact Or.inl rfl
  · obtain ⟨_, _, rfl⟩ := List.mem_map.mp h4
    exact Or.inr rfl

/-- A recommendation list whose priorities are all `high` or `medium`
yields an empty `long_term` bucket. -/
theorem create_action_plan_long_term_empty (recs : List Recommendation)
    (h : ∀ r ∈ recs, r.priority = "high" ∨ r.priority = "medium") :
    (create_action_plan recs).long_term = [] := by
  induction recs with
  | nil => rfl
  | cons r rs ih =>
    have hr := h r (List.mem_cons_self r rs)
    have hrs := ih (fun x hx => h x (List.mem_cons_of_mem r hx))
    unfold create_action_plan
    rcases hr with hr | hr
    · rw [if_pos hr]; exact hrs
    · by_cases hh : r.priority = "high"
      · rw [if_pos hh]; exact hrs
      · rw [if_neg hh, if_pos hr]; exact hrs

/-- Claim C10: every emitted recommendation has priority `high` (content
gaps, hub optimization) or `medium` (orphan linking, semantic bridging),
and consequently the long_term bucket of the action plan built from a
run is always empty. -/
theorem c10_priorities_and_empty_long_term (qp : QueryPatterns)
    (da : DepthAnalysis) :
    (∀ r ∈ generate_recommendations qp da,
      r.priority = "high" ∨ r.priority = "medium") ∧
    (create_action_plan (generate_recommendations qp da)).long_term = [] :=
  ⟨fun r hr => generate_recommendations_priority qp da r hr,
   create_action_plan_long_term_empty _
     (fun r hr => generate_recommendations_priority qp da r hr)⟩

/-- Witness for C10 at a concrete run (one orphan record, no gaps, no
hubs, no clusters): the emitted orphan recommendation has priority
`medium` and the long_term bucket is empty. -/
theorem c10_priorities_witness :
    ((⟨"orphan_content", "medium", "Add internal links",
        "Connect orphan content: t", "Improves content graph connectivity",
        some "u"⟩ : Recommendation).priority = "high" ∨
      (⟨"orphan_content", "medium", "Add internal links",
        "Connect orphan content: t", "Improves content graph connectivity",
        some "u"⟩ : Recommendation).priority = "medium") ∧
    (create_action_plan (generate_recommendations ⟨none⟩
        ⟨[⟨"t", "u", 0, 0, 0, 0⟩], [], []⟩)).long_term = [] :=
  ⟨(c10_priorities_and_empty_long_term ⟨none⟩
      ⟨[⟨"t", "u", 0, 0, 0, 0⟩], [], []⟩).1 _ (by
        show _ ∈ generate_recommendations _ _
        unfold generate_recommendations
        simp),
   (c10_priorities_and_empty_long_term ⟨none⟩
      ⟨[⟨"t", "u", 0, 0, 0, 0⟩], [], []⟩).2⟩

/-! ## Number printing: recovering a number from `toString` -/

/-- The value of a digit character produced by `Nat.digitChar` below 10. -/
theorem digitChar_val (m : Nat) (h : m < 10) :
    digitVal (Nat.digitChar m) = m := by
  interval_cases m <;> rfl

/-- Folding `parseStep` over the digits that `Nat.toDigitsCore` emits
recovers the encoded number (relative to whatever trails them). -/
theorem toDigitsCore_foldl (f : Nat) : ∀ (n : Nat) (ds : List Char), n ≤ f →
    ∃ k, ∀ A : Nat, (Nat.toDigitsCore 10 f n ds).foldl parseStep A =
      ds.foldl parseStep (A * 10 ^ k + n) := by
  induction f with
  | zero =>
    intro n ds hn
    refine ⟨0, fun A => ?_⟩
    have : n = 0 := by omega
    subst this
    simp [Nat.toDigitsCore]
  | succ f ih =>
    intro n ds hn
    simp only [Nat.toDigitsCore]
    by_cases h0 : n / 10 = 0
    · rw [if_pos h0]
      refine ⟨1, fun A => ?_⟩
      have hlt : n < 10 := by omega
      simp only [List.foldl, parseStep, Nat.mod_eq_of_lt hlt,
        digitChar_val _ hlt]
      congr 1
      ring
    · rw [if_neg h0]
      have hle : n / 10 ≤ f := by omega
      obtain ⟨k, hk⟩ := ih (n / 10) (Nat.digitChar (n % 10) :: ds) hle
      refine ⟨k + 1, fun A => ?_⟩
      rw [hk A]
      simp only [List.foldl, parseStep,
        digitChar_val _ (Nat.mod_lt _ (by norm_num))]
      congr 1
      have hdm := Nat.div_add_mod n 10
      calc 10 * (A * 10 ^ k + n / 10) + n % 10
          = A * 10 ^ (k + 1) + (10 * (n / 10) + n % 10) := by ring
        _ = A * 10 ^ (k + 1) + n := by omega

/-- Parsing the decimal print of `n` gives back `n`. -/
theorem repr_parse (n : Nat) : (Nat.repr n).data.foldl parseStep 0 = n := by
  obtain ⟨k, hk⟩ := toDigitsCore_foldl (n + 1) n [] (by omega)
  have h : Nat.repr n = ⟨Nat.toDigitsCore 10 (n + 1) n []⟩ := rfl
  rw [h]
  simpa using hk 0

/-- Decimal printing of naturals is injective. -/
theorem nat_repr_injective : Function.Injective Nat.repr := by
  intro m n h
  have hm := repr_parse m
  have hn := repr_parse n
  rw [h] at hm
  omega

/-! ## Key distinctness and injectivity -/

/-- Strings sharing a prefix and equal as a whole have equal suffixes. -/
theorem append_left_cancel_str {p a b : String} (h : p ++ a = p ++ b) :
    a = b := by
  have h2 := congrArg String.data h
  rw [String.data_append, String.data_append] at h2
  have h3 := List.append_cancel_left h2
  cases a; cases b
  exact congrArg String.mk h3

/-- Category keys are injective in the category id. -/
theorem catKey_injective {a b : Nat} (h : catKey a = catKey b) : a = b := by
  have h1 := NodeKey.str.inj h
  have h2 : toString a = toString b := append_left_cancel_str h1
  exact nat_repr_injective h2

/-- Tag keys are injective in the tag id. -/
theorem tagKey_injective {a b : Nat} (h : tagKey a = tagKey b) : a = b := by
  have h1 := NodeKey.str.inj h
  have h2 : toString a = toString b := append_left_cancel_str h1
  exact nat_repr_injective h2

/-- A post key (bare Python `int`) never equals a category key (a
string). -/
theorem postKey_ne_catKey (a b : Nat) : postKey a ≠ catKey b := fun h =>
  NodeKey.noConfusion h

/-- A post key never equals a tag key. -/
theorem postKey_ne_tagKey (a b : Nat) : postKey a ≠ tagKey b := fun h =>
  NodeKey.noConfusion h

/-- A page key (`page_...`) never equals a category key (`cat_...`). -/
theorem pageKey_ne_catKey (a b : Nat) : pageKey a ≠ catKey b := by
  intro h
  have h1 := NodeKey.str.inj h
  have h2 := congrArg String.data h1
  rw [String.data_append, String.data_append] at h2
  rw [show "page_".data = 'p' :: 'a' :: 'g' :: 'e' :: '_' :: [] from rfl,
      show "cat_".data = 'c' :: 'a' :: 't' :: '_' :: [] from rfl] at h2
  simp only [List.cons_append, List.nil_append, List.cons.injEq] at h2
  exact absurd h2.1 (by decide)

/-- A page key never equals a tag key. -/
theorem pageKey_ne_tagKey (a b : Nat) : pageKey a ≠ tagKey b := by
  intro h
  have h1 := NodeKey.str.inj h
  have h2 := congrArg String.data h1
  rw [String.data_append, String.data_append] at h2
  rw [show "page_".data = 'p' :: 'a' :: 'g' :: 'e' :: '_' :: [] from rfl,
      show "tag_".data = 't' :: 'a' :: 'g' :: '_' :: [] from rfl] at h2
  simp only [List.cons_append, List.nil_append, List.cons.injEq] at h2
  exact absurd h2.1 (by decide)

/-- A category key never equals a tag key. -/
theorem catKey_ne_tagKey (a b : Nat) : catKey a ≠ tagKey b := by
  intro h
  have h1 := NodeKey.str.inj h
  have h2 := congrArg String.data h1
  rw [String.data_append, String.data_append] at h2
  rw [show "cat_".data = 'c' :: 'a' :: 't' :: '_' :: [] from rfl,
      show "tag_".data = 't' :: 'a' :: 'g' :: '_' :: [] from rfl] at h2
  simp only [List.cons_append, List.nil_append, List.cons.injEq] at h2
  exact absurd h2.1 (by decide)

/-! ## Node-key uniqueness is preserved by every graph operation -/

/-- `findNode` succeeds exactly when the key is present. -/
theorem findNode_isSome_iff (g : Graph) (k : NodeKey) :
    (findNode g k).isSome ↔ keyPresent g k := by
  unfold findNode keyPresent
  cases hf : g.nodes.find? (fun p => p.1 == k) with
  | none =>
    simp only [Option.map_none', Option.isSome_none]
    constructor
    · intro h; cases h
    · rintro ⟨p, hp, he⟩
      have hq := List.find?_eq_none.mp hf p hp
      simp [he] at hq
  | some p =>
    simp only [Option.map_some', Option.isSome_some]
    constructor
    · intro _
      have hm := List.mem_of_find?_eq_some hf
      have hp := List.find?_some hf
      exact ⟨p, hm, by simpa using hp⟩
    · intro _; trivial

/-- `add_node` preserves key uniqueness. -/
theorem addNode_nodup (g : Graph) (k : NodeKey) (d : NodeData)
    (h : (g.nodes.map Prod.fst).Nodup) :
    ((addNode g k d).nodes.map Prod.fst).Nodup := by
  unfold addNode
  by_cases hp : (findNode g k).isSome
  · rw [if_pos hp]
    have : (g.nodes.map (fun p => if p.1 == k then (k, d) else p)).map Prod.fst
        = g.nodes.map Prod.fst := by
      rw [List.map_map]
      refine List.map_congr_left (fun p _ => ?_)
      by_cases hk : p.1 == k
      · simp only [Function.comp_apply, if_pos hk]
        exact (eq_of_beq hk).symm
      · simp only [Function.comp_apply, if_neg hk]
    rw [this]
    exact h
  · rw [if_neg hp]
    have hk : k ∉ g.nodes.map Prod.fst := by
      intro hmem
      obtain ⟨p, hpm, hpe⟩ := List.mem_map.mp hmem
      exact hp ((findNode_isSome_iff g k).mpr ⟨p, hpm, hpe⟩)
    rw [List.map_append]
    simp only [List.map_cons, List.map_nil]
    exact List.nodup_append.mpr ⟨h, List.nodup_singleton k,
      by simpa [List.disjoint_right] using hk⟩

/-- `ensureNode` preserves key uniqueness. -/
theorem ensureNode_nodup (g : Graph) (k : NodeKey)
    (h : (g.nodes.map Prod.fst).Nodup) :
    ((ensureNode g k).nodes.map Prod.fst).Nodup := by
  unfold ensureNode
  by_cases hp : (findNode g k).isSome
  · rwa [if_pos hp]
  · rw [if_neg hp]
    have hk : k ∉ g.nodes.map Prod.fst := by
      intro hmem
      obtain ⟨p, hpm, hpe⟩ := List.mem_map.mp hmem
      exact hp ((findNode_isSome_iff g k).mpr ⟨p, hpm, hpe⟩)
    rw [List.map_append]
    simp only [List.map_cons, List.map_nil]
    exact List.nodup_append.mpr ⟨h, List.nodup_singleton k,
      by simpa [List.disjoint_right] using hk⟩

/-- `add_edge` preserves key uniqueness. -/
theorem addEdge_nodup (g : Graph) (u v : NodeKey) (t : String)
    (h : (g.nodes.map Prod.fst).Nodup) :
    ((addEdge g u v t).nodes.map Prod.fst).Nodup := by
  unfold addEdge
  have h2 := ensureNode_nodup _ v (ensureNode_nodup g u h)
  by_cases hc : (ensureNode (ensureNode g u) v).edges.any
      (fun e => e.1 == u && e.2.1 == v)
  · rw [if_pos hc]; exact h2
  · rw [if_neg hc]; exact h2

/-- Folding a uniqueness-preserving step preserves uniqueness. -/
theorem foldl_graph_preserve {α : Type} (P : Graph → Prop)
    (step : Graph → α → Graph) (hstep : ∀ g a, P g → P (step g a)) :
    ∀ (l : List α) (g : Graph), P g → P (l.foldl step g) := by
  intro l
  induction l with
  | nil => intro g hg; exact hg
  | cons a as ih => intro g hg; exact ih (step g a) (hstep g a hg)

/-- The guarded node-dict iteration preserves any property its body
preserves. -/
theorem iterNodesGo_preserve (P : Graph → Prop)
    (body : NodeKey → Graph → Graph)
    (hbody : ∀ k g, P g → P (body k g)) (n0 : Nat) :
    ∀ (keys : List NodeKey) (g g' : Graph), P g →
      iterNodesGo body n0 keys g = .ok g' → P g' := by
  intro keys
  induction keys with
  | nil =>
    intro g g' hg hrun
    rw [iterNodesGo] at hrun
    by_cases hl : g.nodes.length ≠ n0
    · rw [if_pos hl] at hrun; cases hrun
    · rw [if_neg hl] at hrun
      obtain rfl := Except.ok.inj hrun
      exact hg
  | cons k rest ih =>
    intro g g' hg hrun
    rw [iterNodesGo] at hrun
    by_cases hl : g.nodes.length ≠ n0
    · rw [if_pos hl] at hrun; cases hrun
    · rw [if_neg hl] at hrun
      exact ih (body k g) g' (hbody k g hg) hrun

/-- The internal-link pass body preserves key uniqueness. -/
theorem internalLinkBody_nodup (site : String) (k : NodeKey) (g : Graph)
    (h : (g.nodes.map Prod.fst).Nodup) :
    ((internalLinkBody site k g).nodes.map Prod.fst).Nodup := by
  unfold internalLinkBody
  split
  · exact h
  · split
    · exact h
    · refine foldl_graph_preserve (fun g => (g.nodes.map Prod.fst).Nodup) _
        (fun g2 link hg2 => ?_) _ g h
      split
      · exact addEdge_nodup _ _ _ _ hg2
      · exact hg2

/-- The taxonomy-edge body preserves key uniqueness. -/
theorem taxonomyBody_nodup (k : NodeKey) (g : Graph)
    (h : (g.nodes.map Prod.fst).Nodup) :
    ((taxonomyBody k g).nodes.map Prod.fst).Nodup := by
  unfold taxonomyBody
  split
  · exact h
  · split
    · refine foldl_graph_preserve (fun g => (g.nodes.map Prod.fst).Nodup) _
        (fun gg t hg => addEdge_nodup _ _ _ _ hg) _ _ ?_
      exact foldl_graph_preserve (fun g => (g.nodes.map Prod.fst).Nodup) _
        (fun gg c hg => addEdge_nodup _ _ _ _ hg) _ g h
    · exact h

/-! ## Claim C5 — unique keys, no content/taxonomy collisions -/

/-- Claim C5: within the shared keyspace, content-item keys never collide
with taxonomy-term keys, even for equal numeric ids (posts are keyed by
a bare Python `int`, pages/categories/tags by strings with pairwise
different prefixes); and every graph a successful build returns has
pairwise-distinct node keys. -/
theorem c5_key_uniqueness :
    (∀ a b : Nat,
      postKey a ≠ catKey b ∧ postKey a ≠ tagKey b ∧
      pageKey a ≠ catKey b ∧ pageKey a ≠ tagKey b) ∧
    (∀ (site : String) (content : Content) (g : Graph),
      build_content_graph site content = .ok g →
      (g.nodes.map Prod.fst).Nodup) := by
  constructor
  · intro a b
    exact ⟨postKey_ne_catKey a b, postKey_ne_tagKey a b,
      pageKey_ne_catKey a b, pageKey_ne_tagKey a b⟩
  · intro site content g hrun
    unfold build_content_graph at hrun
    have hn2 : ((postPageGraph content).nodes.map Prod.fst).Nodup := by
      unfold postPageGraph
      refine foldl_graph_preserve (fun g => (g.nodes.map Prod.fst).Nodup) _
        (fun g p hg => addNode_nodup _ _ _ hg) content.pages _ ?_
      exact foldl_graph_preserve (fun g => (g.nodes.map Prod.fst).Nodup) _
        (fun g p hg => addNode_nodup _ _ _ hg) content.posts ⟨[], []⟩
        (by simp)
    revert hrun
    cases hlink : build_internal_link_edges site (postPageGraph content) with
    | error e => intro hrun; cases hrun
    | ok g3 =>
      intro hrun
      change build_taxonomy_edges g3 content = Except.ok g at hrun
      have hn3 : (g3.nodes.map Prod.fst).Nodup :=
        iterNodesGo_preserve (fun g => (g.nodes.map Prod.fst).Nodup)
          (internalLinkBody site)
          (fun k g hg => internalLinkBody_nodup site k g hg)
          ((postPageGraph content).nodes.length)
          ((postPageGraph content).nodes.map Prod.fst)
          (postPageGraph content) g3 hn2 hlink
      set tg : Graph := content.tags.foldl
          (fun gg t => addNode gg (tagKey t.id)
            { type := some "tag", name := some t.name, slug := some t.slug })
          (content.categories.foldl
            (fun gg c => addNode gg (catKey c.id)
              { type := some "category", name := some c.name,
                slug := some c.slug }) g3) with htg
      have hn4 : ((tg.nodes.map Prod.fst)).Nodup := by
        rw [htg]
        refine foldl_graph_preserve (fun g => (g.nodes.map Prod.fst).Nodup) _
          (fun g t hg => addNode_nodup _ _ _ hg) content.tags _ ?_
        exact foldl_graph_preserve (fun g => (g.nodes.map Prod.fst).Nodup) _
          (fun g c hg => addNode_nodup _ _ _ hg) content.categories g3 hn3
      exact iterNodesGo_preserve (fun g => (g.nodes.map Prod.fst).Nodup)
        taxonomyBody (fun k g hg => taxonomyBody_nodup k g hg)
        (tg.nodes.length) (tg.nodes.map Prod.fst) tg g hn4 hrun

/-- Witness for C5: the empty input builds successfully and its graph has
(vacuously) pairwise-distinct keys. -/
theorem c5_key_uniqueness_witness :
    (((⟨[], []⟩ : Graph)).nodes.map Prod.fst).Nodup :=
  c5_key_uniqueness.2 siteU ⟨[], [], [], []⟩ ⟨[], []⟩ rfl

/-! ## Claim C3 — graph construction is (not) total -/

/-- Claim C3 fails on the code: a single post declaring tag id `77` with
no tag records in the input.  `build_taxonomy_edges` walks the node dict
and `add_edge(node_id, f"tag_{tag_id}")` inserts the missing node
`tag_77` into that same dict mid-iteration, so CPython raises
`RuntimeError: dictionary changed size during iteration` instead of
silently skipping the unresolvable reference.  The embedding evaluates
graph construction on that input to the corresponding error. -/
theorem c3_unresolvable_tag_raises :
    build_content_graph siteU content_tag77 =
      .error "RuntimeError: dictionary changed size during iteration" := rfl

/-! ## Edge-list calculus for the taxonomy pass (claim C2) -/

/-- Filtering after an update that only rewrites filtered-out elements to
a filtered-out element changes nothing. -/
theorem filter_map_update_ne {α : Type} (p q : α → Bool) (r : α)
    (l : List α) (h1 : p r = false)
    (h2 : ∀ e, q e = true → p e = false) :
    (l.map (fun e => if q e then r else e)).filter p = l.filter p := by
  induction l with
  | nil => rfl
  | cons e es ih =>
    simp only [List.map_cons]
    by_cases hq : q e
    · rw [if_pos hq, List.filter_cons, List.filter_cons, h1, h2 e hq]
      simpa using ih
    · rw [if_neg hq, List.filter_cons, List.filter_cons]
      cases hp : p e with
      | false => simpa [hp] using ih
      | true => simp [hp, ih]

/-- Filtering commutes with a map that preserves the filter value. -/
theorem filter_map_comm {α : Type} (f : α → α) (p : α → Bool) (l : List α)
    (h : ∀ e, p (f e) = p e) : (l.map f).filter p = (l.filter p).map f := by
  induction l with
  | nil => rfl
  | cons e es ih =>
    simp only [List.map_cons, List.filter_cons, h e]
    cases hp : p e with
    | false => simpa [hp] using ih
    | true => simp [hp, ih]

/-- `ensureNode` is the identity on graphs already carrying the key. -/
theorem ensureNode_of_present {g : Graph} {k : NodeKey}
    (h : keyPresent g k) : ensureNode g k = g := by
  unfold ensureNode
  rw [if_pos ((findNode_isSome_iff g k).mpr h)]

/-- `add_edge` does not change the node dict when both endpoints exist. -/
theorem addEdge_nodes_of_present {g : Graph} {u v : NodeKey} (t : String)
    (hu : keyPresent g u) (hv : keyPresent g v) :
    (addEdge g u v t).nodes = g.nodes := by
  unfold addEdge
  rw [ensureNode_of_present hu, ensureNode_of_present hv]
  by_cases hc : g.edges.any (fun e => e.1 == u && e.2.1 == v)
  · rw [if_pos hc]
  · rw [if_neg hc]

/-- The duplicate-pair test of `add_edge` decides `hasEdgePair`. -/
theorem any_pair_iff (g : Graph) (u v : NodeKey) :
    (g.edges.any (fun e => e.1 == u && e.2.1 == v) = true) ↔
      hasEdgePair g u v := by
  unfold hasEdgePair
  rw [List.any_eq_true]
  constructor
  · rintro ⟨e, he, hb⟩
    have hb2 := Bool.and_eq_true_iff.mp hb
    exact ⟨e, he, eq_of_beq hb2.1, eq_of_beq hb2.2⟩
  · rintro ⟨e, he, h1, h2⟩
    exact ⟨e, he, Bool.and_eq_true_iff.mpr ⟨beq_iff_eq.mpr h1, beq_iff_eq.mpr h2⟩⟩

/-- Adding a fresh pair appends the edge. -/
theorem addEdge_edges_fresh {g : Graph} {u v : NodeKey} (t : String)
    (hu : keyPresent g u) (hv : keyPresent g v)
    (h : ¬ hasEdgePair g u v) :
    (addEdge g u v t).edges = g.edges ++ [(u, v, t)] := by
  unfold addEdge
  rw [ensureNode_of_present hu, ensureNode_of_present hv]
  rw [if_neg (fun hc => h ((any_pair_iff g u v).mp hc))]

/-- Re-adding an existing pair rewrites that pair's attribute entry. -/
theorem addEdge_edges_dup {g : Graph} {u v : NodeKey} (t : String)
    (hu : keyPresent g u) (hv : keyPresent g v)
    (h : hasEdgePair g u v) :
    (addEdge g u v t).edges =
      g.edges.map (fun e => if e.1 == u && e.2.1 == v then (u, v, t) else e) := by
  unfold addEdge
  rw [ensureNode_of_present hu, ensureNode_of_present hv]
  rw [if_pos ((any_pair_iff g u v).mpr h)]

/-- Edges out of a different source are untouched by `add_edge`. -/
theorem addEdge_srcSlice_ne {g : Graph} {u v k : NodeKey} (t : String)
    (hu : keyPresent g u) (hv : keyPresent g v) (hk : k ≠ u) :
    srcSlice (addEdge g u v t) k = srcSlice g k := by
  have hku : (u == k) = false := beq_eq_false_iff_ne.mpr (fun h => hk h.symm)
  by_cases h : hasEdgePair g u v
  · unfold srcSlice
    rw [addEdge_edges_dup t hu hv h]
    refine filter_map_update_ne _ _ _ _ hku (fun e he => ?_)
    have he2 := Bool.and_eq_true_iff.mp he
    rw [eq_of_beq he2.1]
    exact hku
  · unfold srcSlice
    rw [addEdge_edges_fresh t hu hv h, List.filter_append]
    simp [hku]

/-- `hasEdgePair` reads off the source slice. -/
theorem hasEdgePair_iff_slice (g : Graph) (u v : NodeKey) :
    hasEdgePair g u v ↔ ∃ e ∈ srcSlice g u, e.2.1 = v := by
  unfold hasEdgePair srcSlice
  constructor
  · rintro ⟨e, he, h1, h2⟩
    exact ⟨e, List.mem_filter.mpr ⟨he, beq_iff_eq.mpr h1⟩, h2⟩
  · rintro ⟨e, he, h2⟩
    have := List.mem_filter.mp he
    exact ⟨e, this.1, eq_of_beq this.2, h2⟩

/-- Adding a fresh pair appends to the source slice. -/
theorem addEdge_srcSlice_self_fresh {g : Graph} {k v : NodeKey} (t : String)
    (hu : keyPresent g k) (hv : keyPresent g v)
    (h : ¬ hasEdgePair g k v) :
    srcSlice (addEdge g k v t) k = srcSlice g k ++ [(k, v, t)] := by
  unfold srcSlice
  rw [addEdge_edges_fresh t hu hv h, List.filter_append]
  simp

/-- Re-adding an existing pair rewrites the matching entries of the
source slice in place. -/
theorem addEdge_srcSlice_self_dup {g : Graph} {k v : NodeKey} (t : String)
    (hu : keyPresent g k) (hv : keyPresent g v)
    (h : hasEdgePair g k v) :
    srcSlice (addEdge g k v t) k =
      (srcSlice g k).map (fun e => if e.2.1 == v then (k, v, t) else e) := by
  unfold srcSlice
  rw [addEdge_edges_dup t hu hv h]
  rw [filter_map_comm _ _ _ (fun e => ?_)]
  · refine List.map_congr_left (fun e he => ?_)
    have hk := (List.mem_filter.mp he).2
    rw [show (e.1 == k && e.2.1 == v) = (e.2.1 == v) by rw [hk, Bool.true_and]]
  · by_cases hc : (e.1 == k && e.2.1 == v) = true
    · rw [if_pos hc]
      have := Bool.and_eq_true_iff.mp hc
      simp [this.1]
    · rw [if_neg hc]

/-- Folding the category (or tag) edge additions of one post: the node
dict is unchanged, other sources are untouched, and the source slice
grows by exactly the set of fresh target keys, each as one
`(k, target, ty)` edge. -/
theorem taxEdgeFold_slice (k : NodeKey) (mk2 : Nat → NodeKey) (ty : String) :
    ∀ (ids : List Nat) (g : Graph)
      (old : List (NodeKey × NodeKey × String)) (ks : List NodeKey),
      keyPresent g k →
      (∀ c ∈ ids, keyPresent g (mk2 c)) →
      srcSlice g k = old ++ ks.map (fun K => (k, K, ty)) →
      (∀ e ∈ old, ∀ i : Nat, e.2.1 ≠ mk2 i) →
      ks.Nodup →
      ((ids.foldl (fun gg c => addEdge gg k (mk2 c) ty) g).nodes = g.nodes ∧
       (∀ k2, k2 ≠ k →
         srcSlice (ids.foldl (fun gg c => addEdge gg k (mk2 c) ty) g) k2 =
           srcSlice g k2) ∧
       ∃ ks' : List NodeKey,
         srcSlice (ids.foldl (fun gg c => addEdge gg k (mk2 c) ty) g) k =
           old ++ ks'.map (fun K => (k, K, ty)) ∧
         ks'.Nodup ∧
         (∀ K, K ∈ ks' ↔ K ∈ ks ∨ ∃ c ∈ ids, K = mk2 c)) := by
  intro ids
  induction ids with
  | nil =>
    intro g old ks hk hpres hslice hold hnd
    refine ⟨rfl, fun k2 _ => rfl, ks, hslice, hnd, fun K => ?_⟩
    simp
  | cons c cs ih =>
    intro g old ks hk hpres hslice hold hnd
    have hkc : keyPresent g (mk2 c) := hpres c (List.mem_cons_self c cs)
    have hnodes : (addEdge g k (mk2 c) ty).nodes = g.nodes :=
      addEdge_nodes_of_present ty hk hkc
    have hpair : hasEdgePair g k (mk2 c) ↔ mk2 c ∈ ks := by
      rw [hasEdgePair_iff_slice, hslice]
      constructor
      · rintro ⟨e, he, htgt⟩
        rcases List.mem_append.mp he with ho | hm
        · exact absurd htgt (hold e ho c)
        · obtain ⟨K, hK, rfl⟩ := List.mem_map.mp hm
          rw [← htgt]
          exact hK
      · intro hin
        exact ⟨(k, mk2 c, ty), List.mem_append_right _
          (List.mem_map.mpr ⟨mk2 c, hin, rfl⟩), rfl⟩
    simp only [List.foldl_cons]
    by_cases hin : mk2 c ∈ ks
    · -- duplicate declared id: the edge already exists, the slice is
      -- rewritten in place to an identical list
      have hslice2 : srcSlice (addEdge g k (mk2 c) ty) k =
          old ++ ks.map (fun K => (k, K, ty)) := by
        rw [addEdge_srcSlice_self_dup ty hk hkc (hpair.mpr hin), hslice,
          List.map_append]
        congr 1
        · calc (List.map (fun e => if e.2.1 == mk2 c then (k, mk2 c, ty) else e)
                old)
              = List.map id old := by
                refine List.map_congr_left (fun e he => ?_)
                rw [if_neg ?_]
                · rfl
                · intro hb
                  exact hold e he c (eq_of_beq hb)
            _ = old := List.map_id old
        · rw [List.map_map]
          refine List.map_congr_left (fun K hK => ?_)
          simp only [Function.comp_apply]
          by_cases hKc : (K == mk2 c) = true
          · rw [if_pos hKc, eq_of_beq hKc]
          · rw [if_neg hKc]
      obtain ⟨hn, hs2, ks', hks1, hks2, hks3⟩ := ih (addEdge g k (mk2 c) ty)
        old ks
        (by unfold keyPresent at hk ⊢; rwa [hnodes])
        (fun c' hc' => by
          unfold keyPresent
          rw [hnodes]
          exact hpres c' (List.mem_cons_of_mem c hc'))
        hslice2 hold hnd
      refine ⟨by rw [hn, hnodes], fun k2 hk2 => ?_, ks', hks1, hks2,
        fun K => ?_⟩
      · rw [hs2 k2 hk2, addEdge_srcSlice_ne ty hk hkc hk2]
      · rw [hks3 K]
        constructor
        · rintro (h | ⟨c', hc', rfl⟩)
          · exact Or.inl h
          · exact Or.inr ⟨c', List.mem_cons_of_mem c hc', rfl⟩
        · rintro (h | ⟨c', hc', rfl⟩)
          · exact Or.inl h
          · rcases List.mem_cons.mp hc' with rfl | hc2
            · exact Or.inl hin
            · exact Or.inr ⟨c', hc2, rfl⟩
    · -- fresh declared id: the edge is appended
      have hslice2 : srcSlice (addEdge g k (mk2 c) ty) k =
          old ++ (ks ++ [mk2 c]).map (fun K => (k, K, ty)) := by
        rw [addEdge_srcSlice_self_fresh ty hk hkc
          (fun hp => hin (hpair.mp hp)), hslice, List.map_append,
          List.append_assoc]
        rfl
      obtain ⟨hn, hs2, ks', hks1, hks2, hks3⟩ := ih (addEdge g k (mk2 c) ty)
        old (ks ++ [mk2 c])
        (by unfold keyPresent at hk ⊢; rwa [hnodes])
        (fun c' hc' => by
          unfold keyPresent
          rw [hnodes]
          exact hpres c' (List.mem_cons_of_mem c hc'))
        hslice2 hold
        (by
          refine List.nodup_append.mpr ⟨hnd, List.nodup_singleton _, ?_⟩
          simpa [List.disjoint_right] using hin)
      refine ⟨by rw [hn, hnodes], fun k2 hk2 => ?_, ks', hks1, hks2,
        fun K => ?_⟩
      · rw [hs2 k2 hk2, addEdge_srcSlice_ne ty hk hkc hk2]
      · rw [hks3 K]
        constructor
        · rintro (h | ⟨c', hc', rfl⟩)
          · rcases List.mem_append.mp h with h2 | h2
            · exact Or.inl h2
            · rw [List.mem_singleton.mp h2]
              exact Or.inr ⟨c, List.mem_cons_self c cs, rfl⟩
          · exact Or.inr ⟨c', List.mem_cons_of_mem c hc', rfl⟩
        · rintro (h | ⟨c', hc', rfl⟩)
          · exact Or.inl (List.mem_append_left _ h)
          · rcases List.mem_cons.mp hc' with rfl | hc2
            · exact Or.inl (List.mem_append_right _ (List.mem_singleton.mpr rfl))
            · exact Or.inr ⟨c', hc2, rfl⟩

/-- The `categorized_as` out-count reads off the source slice. -/
theorem countCA_slice (g : Graph) (k : NodeKey) :
    countCategorizedAs g k =
      ((srcSlice g k).filter (fun e => e.2.2 == "categorized_as")).length := by
  unfold countCategorizedAs srcSlice
  rw [List.filter_filter]
  congr 1
  refine List.filter_congr (fun e _ => ?_)
  rw [Bool.and_comm]

/-- `findNode` depends only on the node dict. -/
theorem findNode_congr {g g' : Graph} (h : g.nodes = g'.nodes)
    (k : NodeKey) : findNode g k = findNode g' k := by
  unfold findNode
  rw [h]

/-- `keyPresent` depends only on the node dict. -/
theorem keyPresent_congr {g g' : Graph} (h : g.nodes = g'.nodes)
    (k : NodeKey) : keyPresent g k ↔ keyPresent g' k := by
  unfold keyPresent
  rw [h]

/-- A found node is present. -/
theorem keyPresent_of_findNode {g : Graph} {k : NodeKey} {d : NodeData}
    (h : findNode g k = some d) : keyPresent g k := by
  rw [← findNode_isSome_iff]
  rw [h]
  rfl

/-- With pairwise-distinct keys, `findNode` returns the data of the
unique entry carrying the key. -/
theorem findNode_eq_of_mem_nodup {g : Graph} {k : NodeKey} {d : NodeData}
    (hnd : (g.nodes.map Prod.fst).Nodup) (hm : (k, d) ∈ g.nodes) :
    findNode g k = some d := by
  unfold findNode
  obtain ⟨nodes⟩ := g
  induction nodes with
  | nil => cases hm
  | cons p rest ih =>
    simp only [List.map_cons, List.nodup_cons] at hnd
    rcases List.mem_cons.mp hm with rfl | hm2
    · simp [List.find?_cons_of_pos]
    · have hne : (p.1 == k) = false := by
        refine beq_eq_false_iff_ne.mpr (fun he => ?_)
        exact hnd.1 (he ▸ List.mem_map.mpr ⟨(k, d), hm2, rfl⟩)
      rw [List.find?_cons_of_neg _ (by simp [hne])]
      exact ih hnd.2 hm2

/-- `add_node` never touches the edge list. -/
theorem addNode_edges (g : Graph) (k : NodeKey) (d : NodeData) :
    (addNode g k d).edges = g.edges := by
  unfold addNode
  by_cases hp : (findNode g k).isSome
  · rw [if_pos hp]
  · rw [if_neg hp]

/-- `add_node` makes its key present. -/
theorem addNode_present_self (g : Graph) (k : NodeKey) (d : NodeData) :
    keyPresent (addNode g k d) k := by
  unfold addNode
  by_cases hp : (findNode g k).isSome
  · rw [if_pos hp]
    obtain ⟨q, hq, he⟩ := (findNode_isSome_iff g k).mp hp
    refine ⟨(k, d), List.mem_map.mpr ⟨q, hq, ?_⟩, rfl⟩
    rw [if_pos (beq_iff_eq.mpr he)]
  · rw [if_neg hp]
    exact ⟨(k, d), List.mem_append_right _ (List.mem_singleton.mpr rfl), rfl⟩

/-- `add_node` keeps every present key present. -/
theorem addNode_present_mono {g : Graph} {K : NodeKey} (k : NodeKey)
    (d : NodeData) (h : keyPresent g K) :
    keyPresent (addNode g k d) K := by
  obtain ⟨q, hq, rfl⟩ := h
  unfold addNode
  by_cases hp : (findNode g k).isSome
  · rw [if_pos hp]
    by_cases hqk : (q.1 == k) = true
    · exact ⟨(k, d), List.mem_map.mpr ⟨q, hq, by rw [if_pos hqk]⟩,
        (eq_of_beq hqk).symm⟩
    · exact ⟨q, List.mem_map.mpr ⟨q, hq, by rw [if_neg hqk]⟩, rfl⟩
  · rw [if_neg hp]
    exact ⟨q, List.mem_append_left _ hq, rfl⟩

/-- Folding the category (or tag) node creations over the raw taxonomy
records: the original nodes stay untouched in front, every appended or
updated entry is term-shaped (never `post`-typed), edges are untouched,
every processed term id becomes present, and present keys stay
present. -/
theorem addTermNodes_facts (mk2 : Nat → NodeKey) (mkD : RawTerm → NodeData)
    (hty : ∀ t, (mkD t).type ≠ some "post")
    (step : Graph → RawTerm → Graph)
    (hstep : ∀ gg t, step gg t = addNode gg (mk2 t.id) (mkD t)) :
    ∀ (terms : List RawTerm) (g0 : Graph)
      (extra : List (NodeKey × NodeData)) (g : Graph),
      g.nodes = g0.nodes ++ extra →
      g.edges = g0.edges →
      (∀ q ∈ extra, q.2.type ≠ some "post") →
      (∀ p ∈ g0.nodes, ∀ i : Nat, p.1 ≠ mk2 i) →
      ∃ extra' : List (NodeKey × NodeData),
        (terms.foldl step g).nodes = g0.nodes ++ extra' ∧
        (terms.foldl step g).edges = g0.edges ∧
        (∀ q ∈ extra', q.2.type ≠ some "post") ∧
        (∀ t ∈ terms, keyPresent (terms.foldl step g) (mk2 t.id)) ∧
        (∀ K, keyPresent g K → keyPresent (terms.foldl step g) K) := by
  intro terms
  induction terms with
  | nil =>
    intro g0 extra g hn he hq hfresh
    exact ⟨extra, hn, he, hq, fun t ht => absurd ht (List.not_mem_nil t),
      fun K hK => hK⟩
  | cons t ts ih =>
    intro g0 extra g hn he hq hfresh
    simp only [List.foldl_cons, hstep g t]
    have hstep2 : (addNode g (mk2 t.id) (mkD t)).nodes = g0.nodes ++
        (if (findNode g (mk2 t.id)).isSome then
          extra.map (fun p => if p.1 == mk2 t.id then (mk2 t.id, mkD t) else p)
         else extra ++ [(mk2 t.id, mkD t)]) := by
      unfold addNode
      by_cases hp : (findNode g (mk2 t.id)).isSome
      · rw [if_pos hp, if_pos hp]
        show g.nodes.map (fun p => if p.1 == mk2 t.id then (mk2 t.id, mkD t)
            else p) =
          g0.nodes ++ extra.map (fun p => if p.1 == mk2 t.id
            then (mk2 t.id, mkD t) else p)
        rw [hn, List.map_append]
        congr 1
        calc List.map (fun p => if p.1 == mk2 t.id then (mk2 t.id, mkD t)
              else p) g0.nodes
            = List.map id g0.nodes := by
              refine List.map_congr_left (fun p hp2 => ?_)
              rw [if_neg ?_]
              · rfl
              · intro hb
                exact hfresh p hp2 t.id (eq_of_beq hb)
          _ = g0.nodes := List.map_id g0.nodes
      · rw [if_neg hp, if_neg hp]
        show g.nodes ++ [(mk2 t.id, mkD t)] =
          g0.nodes ++ (extra ++ [(mk2 t.id, mkD t)])
        rw [hn, List.append_assoc]
    have hq2 : ∀ q ∈ (if (findNode g (mk2 t.id)).isSome then
        extra.map (fun p => if p.1 == mk2 t.id then (mk2 t.id, mkD t) else p)
        else extra ++ [(mk2 t.id, mkD t)]), q.2.type ≠ some "post" := by
      by_cases hp : (findNode g (mk2 t.id)).isSome
      · rw [if_pos hp]
        intro q hq3
        obtain ⟨p, hp2, rfl⟩ := List.mem_map.mp hq3
        by_cases hb : (p.1 == mk2 t.id) = true
        · rw [if_pos hb]
          exact hty t
        · rw [if_neg hb]
          exact hq p hp2
      · rw [if_neg hp]
        intro q hq3
        rcases List.mem_append.mp hq3 with h2 | h2
        · exact hq q h2
        · rw [List.mem_singleton.mp h2]
          exact hty t
    obtain ⟨extra', hn', he', hq', hpres', hmono'⟩ := ih g0 _
      (addNode g (mk2 t.id) (mkD t)) hstep2
      (by rw [addNode_edges, he]) hq2 hfresh
    refine ⟨extra', hn', he', hq', fun t2 ht2 => ?_, fun K hK => ?_⟩
    · rcases List.mem_cons.mp ht2 with rfl | h2
      · exact hmono' _ (addNode_present_self g (mk2 t2.id) (mkD t2))
      · exact hpres' t2 h2
    · exact hmono' K (addNode_present_mono _ _ hK)

/-- One unfolding of `taxonomyBody` for a post-typed node. -/
theorem taxonomyBody_eq_of_post {k : NodeKey} {d : NodeData} {g : Graph}
    (hfind : findNode g k = some d) (htype : d.type = some "post") :
    taxonomyBody k g =
      d.tags.foldl (fun gg t => addEdge gg k (tagKey t) "tagged_as")
        (d.categories.foldl
          (fun gg c => addEdge gg k (catKey c) "categorized_as") g) := by
  unfold taxonomyBody
  split
  · rename_i heq
    rw [hfind] at heq
    cases heq
  · rename_i d' heq
    rw [hfind] at heq
    obtain rfl := Option.some.inj heq
    rw [if_pos htype]

/-- One unfolding of `taxonomyBody` for a node that is absent or not
post-typed. -/
theorem taxonomyBody_eq_of_skip {k : NodeKey} {g : Graph}
    (h : ∀ d, findNode g k = some d → d.type ≠ some "post") :
    taxonomyBody k g = g := by
  unfold taxonomyBody
  split
  · rfl
  · rename_i d' heq
    rw [if_neg (h d' heq)]

/-- The taxonomy body of one post: node dict unchanged, other sources
untouched, and the post's `categorized_as` out-count becomes the number
of distinct declared category ids. -/
theorem taxonomyBody_spec (k : NodeKey) (d : NodeData) (g : Graph)
    (hfind : findNode g k = some d) (htype : d.type = some "post")
    (hpc : ∀ c ∈ d.categories, keyPresent g (catKey c))
    (hpt : ∀ t ∈ d.tags, keyPresent g (tagKey t))
    (hsl : ∀ e ∈ srcSlice g k,
      (∀ i : Nat, e.2.1 ≠ catKey i ∧ e.2.1 ≠ tagKey i) ∧
      e.2.2 ≠ "categorized_as") :
    (taxonomyBody k g).nodes = g.nodes ∧
    (∀ k2, k2 ≠ k → srcSlice (taxonomyBody k g) k2 = srcSlice g k2) ∧
    countCategorizedAs (taxonomyBody k g) k = d.categories.dedup.length := by
  have hk : keyPresent g k := keyPresent_of_findNode hfind
  rw [taxonomyBody_eq_of_post hfind htype]
  obtain ⟨hn1, hs1, ks₁, hsl1, hnd1, hmem1⟩ :=
    taxEdgeFold_slice k catKey "categorized_as" d.categories g
      (srcSlice g k) [] hk hpc (by simp)
      (fun e he i => ((hsl e he).1 i).1) List.nodup_nil
  set g1 := d.categories.foldl
    (fun gg c => addEdge gg k (catKey c) "categorized_as") g with hg1
  have hmem1' : ∀ K, K ∈ ks₁ ↔ ∃ c ∈ d.categories, K = catKey c := by
    intro K
    rw [hmem1 K]
    simp
  obtain ⟨hn2, hs2, ks₂, hsl2, hnd2, hmem2⟩ :=
    taxEdgeFold_slice k tagKey "tagged_as" d.tags g1
      (srcSlice g1 k) [] ((keyPresent_congr hn1 k).mpr hk)
      (fun t ht => (keyPresent_congr hn1 _).mpr (hpt t ht)) (by simp)
      (fun e he i => by
        rw [hsl1] at he
        rcases List.mem_append.mp he with ho | hm
        · exact ((hsl e ho).1 i).2
        · obtain ⟨K, hK, rfl⟩ := List.mem_map.mp hm
          obtain ⟨c, _, rfl⟩ := (hmem1' K).mp hK
          exact catKey_ne_tagKey c i)
      List.nodup_nil
  refine ⟨by rw [hn2, hn1], fun k2 hk2 => ?_, ?_⟩
  · rw [hs2 k2 hk2, hs1 k2 hk2]
  · rw [countCA_slice, hsl2, hsl1]
    rw [List.filter_append, List.filter_append]
    have hfold : (srcSlice g k).filter
        (fun e => e.2.2 == "categorized_as") = [] := by
      rw [List.filter_eq_nil_iff]
      intro e he hb
      exact (hsl e he).2 (eq_of_beq hb)
    have hcat : (ks₁.map (fun K => (k, K, "categorized_as"))).filter
        (fun e => e.2.2 == "categorized_as") =
        ks₁.map (fun K => (k, K, "categorized_as")) := by
      rw [List.filter_eq_self]
      intro e he
      obtain ⟨K, _, rfl⟩ := List.mem_map.mp he
      rfl
    have htag : (ks₂.map (fun K => (k, K, "tagged_as"))).filter
        (fun e => e.2.2 == "categorized_as") = [] := by
      rw [List.filter_eq_nil_iff]
      intro e he hb
      obtain ⟨K, _, rfl⟩ := List.mem_map.mp he
      cases hb
    rw [hfold, hcat, htag]
    simp only [List.nil_append, List.append_nil, List.length_append,
      List.length_map]
    have hfin : ks₁.toFinset = d.categories.toFinset.image catKey := by
      ext K
      rw [List.mem_toFinset, hmem1' K, Finset.mem_image]
      constructor
      · rintro ⟨c, hc, rfl⟩
        exact ⟨c, List.mem_toFinset.mpr hc, rfl⟩
      · rintro ⟨c, hc, rfl⟩
        exact ⟨c, List.mem_toFinset.mp hc, rfl⟩
    calc ks₁.length = ks₁.toFinset.card :=
          (List.toFinset_card_of_nodup hnd1).symm
      _ = (d.categories.toFinset.image catKey).card := by rw [hfin]
      _ = d.categories.toFinset.card :=
          Finset.card_image_of_injective _ (fun a b h => catKey_injective h)
      _ = d.categories.dedup.length := List.card_toFinset d.categories

/-- A successful lookup yields an actual node entry. -/
theorem mem_of_findNode {g : Graph} {k : NodeKey} {d : NodeData}
    (h : findNode g k = some d) : (k, d) ∈ g.nodes := by
  unfold findNode at h
  cases hf : g.nodes.find? (fun p => p.1 == k) with
  | none => rw [hf] at h; cases h
  | some p =>
    rw [hf] at h
    obtain ⟨p1, p2⟩ := p
    simp only [Option.map_some'] at h
    obtain rfl := Option.some.inj h
    have hp := List.find?_some hf
    have hk : p1 = k := eq_of_beq (by simpa using hp)
    subst hk
    exact List.mem_of_find?_eq_some hf

/-- An edge-addition fold out of `k` keeps the node dict and every other
source slice unchanged, provided all its endpoints exist. -/
theorem addEdgeFold_nodes (k : NodeKey) (mk2 : Nat → NodeKey) (ty : String) :
    ∀ (ids : List Nat) (g : Graph), keyPresent g k →
      (∀ c ∈ ids, keyPresent g (mk2 c)) →
      ((ids.foldl (fun gg c => addEdge gg k (mk2 c) ty) g).nodes = g.nodes ∧
       ∀ k2, k2 ≠ k →
         srcSlice (ids.foldl (fun gg c => addEdge gg k (mk2 c) ty) g) k2 =
           srcSlice g k2) := by
  intro ids
  induction ids with
  | nil => intro g _ _; exact ⟨rfl, fun _ _ => rfl⟩
  | cons c cs ih =>
    intro g hk hpres
    have hkc := hpres c (List.mem_cons_self c cs)
    have hnodes := addEdge_nodes_of_present (g := g) (u := k) (v := mk2 c)
      ty hk hkc
    simp only [List.foldl_cons]
    obtain ⟨hn, hs⟩ := ih (addEdge g k (mk2 c) ty)
      ((keyPresent_congr hnodes k).mpr hk)
      (fun c' hc' => (keyPresent_congr hnodes _).mpr
        (hpres c' (List.mem_cons_of_mem c hc')))
    refine ⟨by rw [hn, hnodes], fun k2 hk2 => ?_⟩
    rw [hs k2 hk2, addEdge_srcSlice_ne ty hk hkc hk2]

/-- One taxonomy-body step on a graph whose nodes agree with the fully
built node set `N`: nodes stay equal to `N`, other slices untouched. -/
theorem taxonomyBody_stable (N : Graph)
    (HN : ∀ p ∈ N.nodes, p.2.type = some "post" →
      (∀ c ∈ p.2.categories, keyPresent N (catKey c)) ∧
      (∀ t ∈ p.2.tags, keyPresent N (tagKey t)))
    (k : NodeKey) (g : Graph) (hg : g.nodes = N.nodes) :
    (taxonomyBody k g).nodes = N.nodes ∧
    (∀ k2, k2 ≠ k → srcSlice (taxonomyBody k g) k2 = srcSlice g k2) := by
  cases hf : findNode g k with
  | none =>
    rw [taxonomyBody_eq_of_skip (fun d hd => by rw [hf] at hd; cases hd)]
    exact ⟨hg, fun _ _ => rfl⟩
  | some d =>
    by_cases htype : d.type = some "post"
    · rw [taxonomyBody_eq_of_post hf htype]
      have hmem : (k, d) ∈ N.nodes := hg ▸ mem_of_findNode hf
      have hk : keyPresent g k := keyPresent_of_findNode hf
      obtain ⟨hpc, hpt⟩ := HN (k, d) hmem htype
      obtain ⟨hn1, hs1⟩ := addEdgeFold_nodes k catKey "categorized_as"
        d.categories g hk
        (fun c hc => (keyPresent_congr hg _).mpr (hpc c hc))
      obtain ⟨hn2, hs2⟩ := addEdgeFold_nodes k tagKey "tagged_as" d.tags
        (d.categories.foldl
          (fun gg c => addEdge gg k (catKey c) "categorized_as") g)
        ((keyPresent_congr hn1 k).mpr hk)
        (fun t ht => (keyPresent_congr hn1 _).mpr
          ((keyPresent_congr hg _).mpr (hpt t ht)))
      refine ⟨by rw [hn2, hn1, hg], fun k2 hk2 => ?_⟩
      rw [hs2 k2 hk2, hs1 k2 hk2]
    · rw [taxonomyBody_eq_of_skip (fun d' hd' => by
        rw [hf] at hd'
        obtain rfl := Option.some.inj hd'
        exact htype)]
      exact ⟨hg, fun _ _ => rfl⟩

/-- Keys not iterated keep their source slice through the whole loop. -/
theorem taxLoop_slice_pres (N : Graph)
    (HN : ∀ p ∈ N.nodes, p.2.type = some "post" →
      (∀ c ∈ p.2.categories, keyPresent N (catKey c)) ∧
      (∀ t ∈ p.2.tags, keyPresent N (tagKey t))) :
    ∀ (keys : List NodeKey) (g : Graph) (k0 : NodeKey),
      g.nodes = N.nodes → k0 ∉ keys →
      ((keys.foldl (fun gg k => taxonomyBody k gg) g).nodes = N.nodes ∧
       srcSlice (keys.foldl (fun gg k => taxonomyBody k gg) g) k0 =
         srcSlice g k0) := by
  intro keys
  induction keys with
  | nil => intro g k0 hg _; exact ⟨hg, rfl⟩
  | cons k rest ih =>
    intro g k0 hg hk0
    obtain ⟨hn, hs⟩ := taxonomyBody_stable N HN k g hg
    simp only [List.foldl_cons]
    obtain ⟨hn', hs'⟩ := ih (taxonomyBody k g) k0 hn
      (fun h2 => hk0 (List.mem_cons_of_mem k h2))
    refine ⟨hn', ?_⟩
    rw [hs', hs k0 (fun he => hk0 (he ▸ List.mem_cons_self k rest))]

/-- The full taxonomy-edge loop: after iterating the node keys, every
post key among them carries exactly one `categorized_as` edge per
distinct declared category id. -/
theorem taxLoop_count (N : Graph)
    (HN : ∀ p ∈ N.nodes, p.2.type = some "post" →
      (∀ c ∈ p.2.categories, keyPresent N (catKey c)) ∧
      (∀ t ∈ p.2.tags, keyPresent N (tagKey t))) :
    ∀ (keys : List NodeKey) (g : Graph),
      g.nodes = N.nodes →
      keys.Nodup →
      (∀ k ∈ keys, ∀ e ∈ srcSlice g k,
        (∀ i : Nat, e.2.1 ≠ catKey i ∧ e.2.1 ≠ tagKey i) ∧
        e.2.2 ≠ "categorized_as") →
      ((keys.foldl (fun gg k => taxonomyBody k gg) g).nodes = N.nodes ∧
       ∀ k d, k ∈ keys → findNode N k = some d → d.type = some "post" →
         countCategorizedAs (keys.foldl (fun gg k => taxonomyBody k gg) g) k =
           d.categories.dedup.length) := by
  intro keys
  induction keys with
  | nil =>
    intro g hg _ _
    exact ⟨hg, fun k d hk => absurd hk (List.not_mem_nil k)⟩
  | cons k rest ih =>
    intro g hg hnd hsl
    have hnd2 := List.nodup_cons.mp hnd
    obtain ⟨hn1, hs1⟩ := taxonomyBody_stable N HN k g hg
    simp only [List.foldl_cons]
    obtain ⟨hn', hcount'⟩ := ih (taxonomyBody k g) hn1 hnd2.2
      (fun k2 hk2 e he => by
        refine hsl k2 (List.mem_cons_of_mem k hk2) e ?_
        rwa [hs1 k2 (fun he2 => hnd2.1 (he2 ▸ hk2))] at he)
    refine ⟨hn', fun k' d hk' hfindN htype => ?_⟩
    rcases List.mem_cons.mp hk' with rfl | hk2
    · -- the head key: its body sets the count, the rest preserve it
      have hfind : findNode g k' = some d := by
        rw [findNode_congr hg k']
        exact hfindN
      have hmem : (k', d) ∈ N.nodes := hg ▸ mem_of_findNode hfind
      obtain ⟨hpc, hpt⟩ := HN (k', d) hmem htype
      obtain ⟨hbn, hbs, hbc⟩ := taxonomyBody_spec k' d g hfind htype
        (fun c hc => (keyPresent_congr hg _).mpr (hpc c hc))
        (fun t ht => (keyPresent_congr hg _).mpr (hpt t ht))
        (hsl k' (List.mem_cons_self k' rest))
      obtain ⟨_, hsp⟩ := taxLoop_slice_pres N HN rest (taxonomyBody k' g)
        k' hn1 hnd2.1
      rw [countCA_slice, hsp, ← countCA_slice]
      exact hbc
    · exact hcount' k' d hk2 hfindN htype

/-- The guarded node iteration succeeds and equals the plain fold when
the body never changes the node-dict size. -/
theorem iterNodesGo_ok (body : NodeKey → Graph → Graph) (n0 : Nat)
    (P : Graph → Prop)
    (hbody : ∀ k g, P g → P (body k g) ∧
      (body k g).nodes.length = g.nodes.length) :
    ∀ (keys : List NodeKey) (g : Graph), P g → g.nodes.length = n0 →
      iterNodesGo body n0 keys g =
        .ok (keys.foldl (fun gg k => body k gg) g) := by
  intro keys
  induction keys with
  | nil =>
    intro g hP hlen
    rw [iterNodesGo, if_neg (by omega)]
    rfl
  | cons k rest ih =>
    intro g hP hlen
    rw [iterNodesGo, if_neg (by omega)]
    simp only [List.foldl_cons]
    exact ih (body k g) (hbody k g hP).1
      (by rw [(hbody k g hP).2, hlen])

/-! ## Claim C2 — `categorized_as` edge counts -/

set_option maxHeartbeats 1000000 in
/-- Claim C2, amended: on a graph whose declared taxonomy ids all
resolve (every declared category/tag id of every post node has a
matching taxonomy record, the situation in which the taxonomy pass
completes at all), `build_taxonomy_edges` succeeds and gives every post
node exactly one `categorized_as` out-edge per distinct declared
category id.  The hypotheses are the state `build_content_graph`
actually hands over: pairwise-distinct node keys, no taxonomy-shaped
keys yet, and only `internal_link`-typed edges into existing non-taxonomy
nodes. -/
theorem c2_categorized_edge_count (g : Graph) (content : Content)
    (hnodup : (g.nodes.map Prod.fst).Nodup)
    (hnokey : ∀ p ∈ g.nodes, ∀ i : Nat, p.1 ≠ catKey i ∧ p.1 ≠ tagKey i)
    (hres : ∀ p ∈ g.nodes, p.2.type = some "post" →
      (∀ c ∈ p.2.categories, ∃ t ∈ content.categories, t.id = c) ∧
      (∀ x ∈ p.2.tags, ∃ t ∈ content.tags, t.id = x))
    (hedge : ∀ e ∈ g.edges,
      (∀ i : Nat, e.2.1 ≠ catKey i ∧ e.2.1 ≠ tagKey i) ∧
      e.2.2 ≠ "categorized_as") :
    ∃ g2, build_taxonomy_edges g content = Except.ok g2 ∧
      ∀ p ∈ g.nodes, p.2.type = some "post" →
        countCategorizedAs g2 p.1 = p.2.categories.dedup.length := by
  unfold build_taxonomy_edges
  obtain ⟨extra₁, hCGn, hCGe, hq₁, hpres₁, hmono₁⟩ :=
    addTermNodes_facts catKey
      (fun c => { type := some "category", name := some c.name,
                  slug := some c.slug })
      (fun t => by simp)
      (fun gg c => addNode gg (catKey c.id)
        { type := some "category", name := some c.name,
          slug := some c.slug })
      (fun gg t => rfl)
      content.categories g [] g (by simp) rfl
      (by simp) (fun p hp i => (hnokey p hp i).1)
  obtain ⟨extra₂, hNn, hNe, hq₂, hpres₂, hmono₂⟩ :=
    addTermNodes_facts tagKey
      (fun t => { type := some "tag", name := some t.name,
                  slug := some t.slug })
      (fun t => by simp)
      (fun gg t => addNode gg (tagKey t.id)
        { type := some "tag", name := some t.name, slug := some t.slug })
      (fun gg t => rfl)
      content.tags g extra₁ _
      hCGn hCGe hq₁ (fun p hp i => (hnokey p hp i).2)
  set N : Graph := content.tags.foldl
    (fun gg t => addNode gg (tagKey t.id)
      { type := some "tag", name := some t.name, slug := some t.slug })
    (content.categories.foldl
      (fun gg c => addNode gg (catKey c.id)
        { type := some "category", name := some c.name,
          slug := some c.slug }) g) with hN
  have HN : ∀ p ∈ N.nodes, p.2.type = some "post" →
      (∀ c ∈ p.2.categories, keyPresent N (catKey c)) ∧
      (∀ t ∈ p.2.tags, keyPresent N (tagKey t)) := by
    intro p hp htype
    rw [hNn] at hp
    rcases List.mem_append.mp hp with hp2 | hp2
    · obtain ⟨hrc, hrt⟩ := hres p hp2 htype
      constructor
      · intro c hc
        obtain ⟨t, ht, rfl⟩ := hrc c hc
        exact hmono₂ _ (hpres₁ t ht)
      · intro x hx
        obtain ⟨t, ht, rfl⟩ := hrt x hx
        exact hpres₂ t ht
    · exact absurd htype (hq₂ p hp2)
  have hNnodup : (N.nodes.map Prod.fst).Nodup := by
    rw [hN]
    refine foldl_graph_preserve (fun gg => (gg.nodes.map Prod.fst).Nodup) _
      (fun gg t hgg => addNode_nodup _ _ _ hgg) content.tags _ ?_
    exact foldl_graph_preserve (fun gg => (gg.nodes.map Prod.fst).Nodup) _
      (fun gg c hgg => addNode_nodup _ _ _ hgg) content.categories g hnodup
  have hrun : iterGraphNodes N taxonomyBody =
      Except.ok ((N.nodes.map Prod.fst).foldl
        (fun gg k => taxonomyBody k gg) N) := by
    unfold iterGraphNodes
    exact iterNodesGo_ok taxonomyBody N.nodes.length
      (fun gg => gg.nodes = N.nodes)
      (fun k gg hgg => ⟨(taxonomyBody_stable N HN k gg hgg).1,
        by rw [(taxonomyBody_stable N HN k gg hgg).1, hgg]⟩)
      (N.nodes.map Prod.fst) N rfl rfl
  obtain ⟨hfn, hfc⟩ := taxLoop_count N HN (N.nodes.map Prod.fst) N rfl
    hNnodup
    (fun k _ e he => by
      have hee : e ∈ N.edges := (List.mem_filter.mp he).1
      rw [hNe] at hee
      exact hedge e hee)
  refine ⟨_, hrun, fun p hp htype => ?_⟩
  obtain ⟨k, d⟩ := p
  have hmemN : (k, d) ∈ N.nodes := by
    rw [hNn]
    exact List.mem_append_left _ hp
  exact hfc k d (List.mem_map.mpr ⟨(k, d), hmemN, rfl⟩)
    (findNode_eq_of_mem_nodup hNnodup hmemN) htype

/-- Claim C2 as stated is false on the code: a post declaring category id
`99` with no matching category record is not "silently skipped with no
edge and no new node" — `add_edge` first creates both the edge and a bare
`cat_99` node, and the mutation of the node dict mid-iteration then
raises `RuntimeError`, so graph construction returns no graph at all. -/
theorem c2_unresolvable_category_not_skipped :
    build_content_graph siteU content_cat99 =
      Except.error "RuntimeError: dictionary changed size during iteration" ∧
    ¬ ∃ g2, build_content_graph siteU content_cat99 = Except.ok g2 := by
  refine ⟨rfl, ?_⟩
  rintro ⟨g2, h⟩
  rw [show build_content_graph siteU content_cat99 = Except.error
    "RuntimeError: dictionary changed size during iteration" from rfl] at h
  cases h

/-- Witness for the amended C2 theorem: one post declaring categories
`[5, 5, 8]` (a duplicate) and tag `[3]`, with records for ids `5`, `8`
and `3`: the taxonomy pass succeeds and the post ends with exactly two
`categorized_as` out-edges. -/
theorem c2_categorized_edge_count_witness :
    ∃ g2, build_taxonomy_edges gW contentW = Except.ok g2 ∧
      ∀ p ∈ gW.nodes, p.2.type = some "post" →
        countCategorizedAs g2 p.1 = p.2.categories.dedup.length :=
  c2_categorized_edge_count gW contentW (by decide)
    (by
      intro p hp i
      obtain rfl := List.mem_singleton.mp hp
      exact ⟨fun h => NodeKey.noConfusion h, fun h => NodeKey.noConfusion h⟩)
    (by
      intro p hp htype
      obtain rfl := List.mem_singleton.mp hp
      constructor <;> decide)
    (fun e he => absurd he (List.not_mem_nil e))
